import Mathlib

/-!
Verification development for the swaggerpy3 repository.

Shallow embedding of the two core components:
  * `swaggerpy3/processors.py` — `ParsingContext`, `SwaggerProcessor.apply`
    (the document walk) and `WebsocketProcessor`;
  * `swaggerpy3/client.py` — `Operation.__call__` (the invocation engine).

Python JSON-like values are modelled by `PyVal`; Python dicts by ordered
association lists (insertion order preserved, updates in place, as CPython
dicts behave). Raised exceptions are modelled by `Except` with the `PyErr`
error type, whose constructors carry the exception class and the message the
interpreter would produce.
-/

set_option autoImplicit false
set_option maxRecDepth 8192

namespace Swaggerpy3

/-- A Python value as used by the swagger documents and call arguments:
`None`, booleans, integers, strings, lists and (string-keyed) dicts. -/
inductive PyVal where
  | none
  | bool (b : Bool)
  | int (n : Int)
  | str (s : String)
  | list (xs : List PyVal)
  | dict (entries : List (String × PyVal))
deriving Repr

/-- A Python dict with string keys, as an insertion-ordered association list. -/
abbrev PyDict := List (String × PyVal)

/-- `d[k]` lookup: the entry for `k` (CPython dicts hold at most one). -/
def dictGet? (d : PyDict) (k : String) : Option PyVal :=
  match d with
  | [] => Option.none
  | (k', v) :: rest => if k' = k then some v else dictGet? rest k

/-- `d[k] = v` assignment: replace in place when the key exists (keeping its
position, as CPython does), otherwise append at the end. -/
def dictSet (d : PyDict) (k : String) (v : PyVal) : PyDict :=
  match d with
  | [] => [(k, v)]
  | (k', v') :: rest => if k' = k then (k, v) :: rest else (k', v') :: dictSet rest k v

/-- `del d[k]`: drop the entry for `k`. -/
def dictDel (d : PyDict) (k : String) : PyDict :=
  d.filter (fun kv => !(kv.1 = k : Bool))

/-- `d.update(d2)`: assign every entry of `d2` into `d`, in order. -/
def dictUpdate (d d2 : PyDict) : PyDict :=
  d2.foldl (fun acc kv => dictSet acc kv.1 kv.2) d

/-- `d.setdefault(k, v)`: insert `v` at `k` only when the key is absent. -/
def dictSetDefault (d : PyDict) (k : String) (v : PyVal) : PyDict :=
  if (dictGet? d k).isSome then d else d ++ [(k, v)]

/-- Python truthiness (`bool(v)`). -/
def pyTruthy : PyVal → Bool
  | .none => false
  | .bool b => b
  | .int n => !(n = 0 : Bool)
  | .str s => !s.isEmpty
  | .list xs => !xs.isEmpty
  | .dict d => !d.isEmpty

/-- `v is None`. -/
def PyVal.isNone : PyVal → Bool
  | .none => true
  | _ => false

/-- `v` is a dict. -/
def PyVal.isDict : PyVal → Bool
  | .dict _ => true
  | _ => false

/-- The apostrophe character, written via its code point. -/
def sq : String := String.singleton (Char.ofNat 39)

mutual

/-- Python `repr` of a value (string escaping inside containers elided:
the documents and arguments in this development contain no quotes). -/
def pyRepr : PyVal → String
  | .none => "None"
  | .bool true => "True"
  | .bool false => "False"
  | .int n => toString n
  | .str s => sq ++ s ++ sq
  | .list xs => "[" ++ pyReprList xs ++ "]"
  | .dict d => "\x7b" ++ pyReprDict d ++ "\x7d"

/-- Comma-joined `repr`s of list elements. -/
def pyReprList : List PyVal → String
  | [] => ""
  | [x] => pyRepr x
  | x :: xs => pyRepr x ++ ", " ++ pyReprList xs

/-- Comma-joined `repr`s of dict entries. -/
def pyReprDict : List (String × PyVal) → String
  | [] => ""
  | [(k, v)] => sq ++ k ++ sq ++ ": " ++ pyRepr v
  | (k, v) :: rest => sq ++ k ++ sq ++ ": " ++ pyRepr v ++ ", " ++ pyReprDict rest

end

/-- Python `str(v)`: the value itself for strings, `repr`-like otherwise. -/
def pyStr : PyVal → String
  | .str s => s
  | v => pyRepr v

/-- Uppercase hexadecimal digit. -/
def hexDigit (n : Nat) : Char :=
  if n < 10 then Char.ofNat (48 + n) else Char.ofNat (55 + n)

/-- UTF-8 bytes of a code point (as used by `urllib.parse.quote`). -/
def utf8Bytes (n : Nat) : List Nat :=
  if n < 0x80 then [n]
  else if n < 0x800 then [0xC0 + n / 0x40, 0x80 + n % 0x40]
  else if n < 0x10000 then
    [0xE0 + n / 0x1000, 0x80 + n / 0x40 % 0x40, 0x80 + n % 0x40]
  else
    [0xF0 + n / 0x40000, 0x80 + n / 0x1000 % 0x40, 0x80 + n / 0x40 % 0x40, 0x80 + n % 0x40]

/-- Percent-encoding of one byte: `%HH` with uppercase hex. -/
def percentByte (b : Nat) : String :=
  String.mk ['%', hexDigit (b / 16), hexDigit (b % 16)]

/-- `urllib.parse.quote_plus` with its default `safe=''`: ASCII letters,
digits and `_.-~` kept, space becomes `+`, every other character's UTF-8
bytes are percent-encoded. -/
def quotePlus (s : String) : String :=
  s.data.foldl
    (fun acc c =>
      if c.isAlphanum || c = '_' || c = '.' || c = '-' || c = '~' then
        acc ++ String.singleton c
      else if c = ' ' then acc ++ "+"
      else acc ++ String.join ((utf8Bytes c.toNat).map percentByte))
    ""

/-- A raised Python exception: the class together with the message the
interpreter produces. -/
inductive PyErr where
  | typeError (msg : String)
  | keyError (key : String)
  | indexError (msg : String)
  | nameError (msg : String)
  | attributeError (msg : String)
  | assertionError (msg : String)
  | notImplementedError (msg : String)
  | baseException (msg : String)
deriving Repr, DecidableEq

/-! ## `v[k]`, `v.get(...)`, iteration: dynamic access on document nodes

The walk subscripts and iterates document nodes. On well-formed documents the
nodes are dicts holding the expected lists/dicts; on other shapes CPython
raises (`KeyError` for a missing key, `TypeError` for subscripting or
iterating a non-container, `AttributeError` for `.get`/`.items` on a
non-dict). The model raises in the same situations; for nodes that are not
dicts it collapses CPython's shape-dependent error classes into the ones
below (no claim depends on malformed-document error classes). -/

/-- `v[k]` on a document node. -/
def getItem (v : PyVal) (k : String) : Except PyErr PyVal :=
  match v with
  | .dict d =>
    match dictGet? d k with
    | some x => .ok x
    | Option.none => .error (.keyError k)
  | _ => .error (.typeError "object is not subscriptable")

/-- `for x in v`: the elements when `v` is a list. -/
def asSeq (v : PyVal) : Except PyErr (List PyVal) :=
  match v with
  | .list xs => .ok xs
  | _ => .error (.typeError "object is not iterable")

/-- `for x in v[k]`. -/
def getSeq (v : PyVal) (k : String) : Except PyErr (List PyVal) :=
  match getItem v k with
  | .error e => .error e
  | .ok x => asSeq x

/-- `for x in v.get(k, [])`. -/
def getSeqDefault (v : PyVal) (k : String) : Except PyErr (List PyVal) :=
  match v with
  | .dict d =>
    match dictGet? d k with
    | some x => asSeq x
    | Option.none => .ok []
  | _ => .error (.attributeError "object has no attribute get")

/-- `v.items()` on a dict node. -/
def asItems (v : PyVal) : Except PyErr PyDict :=
  match v with
  | .dict d => .ok d
  | _ => .error (.attributeError "object has no attribute items")

/-- `list(v.get(k, {}).items())`. -/
def getItemsDefault (v : PyVal) (k : String) : Except PyErr PyDict :=
  match v with
  | .dict d =>
    match dictGet? d k with
    | some x => asItems x
    | Option.none => .ok []
  | _ => .error (.attributeError "object has no attribute get")

/-- `list(v[k].items())`. -/
def getItemsReq (v : PyVal) (k : String) : Except PyErr PyDict :=
  match getItem v k with
  | .error e => .error e
  | .ok x => asItems x

/-- `v.get(k) or dflt` (Python `or`: the default stands in for any falsy
value). -/
def getOrDefault (v : PyVal) (k : String) (dflt : PyVal) : Except PyErr PyVal :=
  match v with
  | .dict d =>
    match dictGet? d k with
    | some x => .ok (if pyTruthy x then x else dflt)
    | Option.none => .ok dflt
  | _ => .error (.attributeError "object has no attribute get")

/-- `v[k] = x` on a dict node (identity on other nodes, which cannot occur on
the success paths the theorems talk about). -/
def pySetItem (v : PyVal) (k : String) (x : PyVal) : PyVal :=
  match v with
  | .dict d => .dict (dictSet d k x)
  | _ => v

/-- `k in v` for a dict node. -/
def pyHasKey (v : PyVal) (k : String) : Bool :=
  match v with
  | .dict d => (dictGet? d k).isSome
  | _ => false

/-! ## ParsingContext (`processors.py` lines 12-68)

CPython appends to and pops from the tail of its stack lists; the model keeps
the most recently pushed entry at the head, which leaves `is_empty`, lengths
and push/pop pairing untouched. The source initialises `args` with a
self-reference `{'context': self}` used only to pass the context object to
the hooks; the model passes the context to each hook explicitly instead, so
`args` starts empty. -/

structure ParsingContext where
  type_stack : List String
  id_stack : List PyVal
  args : PyDict
deriving Repr

namespace ParsingContext

/-- The context built by `ParsingContext.__init__`. -/
def init : ParsingContext := ⟨[], [], []⟩

/-- `is_empty`: both stacks are empty. -/
def is_empty (ctx : ParsingContext) : Bool :=
  ctx.type_stack.isEmpty && ctx.id_stack.isEmpty

/-- `push_str(obj_type, json, id_string)`: append to both stacks and record
`args[obj_type] = json`. (`apply` passes one non-`str`-typed id through this
function — the raw `resources.get('url')` value — hence the `PyVal` type.) -/
def push_str (ctx : ParsingContext) (obj_type : String) (json : PyVal)
    (id_string : PyVal) : ParsingContext where
  type_stack := obj_type :: ctx.type_stack
  id_stack := id_string :: ctx.id_stack
  args := dictSet ctx.args obj_type json

/-- `push(obj_type, json, id_field)`: fail when `id_field` is absent from
`json`, otherwise `push_str` with `str(json[id_field])`. (On a non-dict node
CPython's `in`/`[]` raise shape-dependent errors; collapsed to `TypeError`.) -/
def push (ctx : ParsingContext) (obj_type : String) (json : PyVal)
    (id_field : String) : Except PyErr ParsingContext :=
  match json with
  | .dict d =>
    match dictGet? d id_field with
    | Option.none => .error (.baseException ("Missing id_field: " ++ id_field))
    | some v => .ok (ctx.push_str obj_type json (.str (pyStr v)))
  | _ => .error (.typeError "node is not a dict")

/-- `pop()`: `del args[type_stack.pop()]; id_stack.pop()`. -/
def pop (ctx : ParsingContext) : Except PyErr ParsingContext :=
  match ctx.type_stack with
  | [] => .error (.indexError "pop from empty list")
  | t :: ts =>
    if (dictGet? ctx.args t).isSome then
      match ctx.id_stack with
      | [] => .error (.indexError "pop from empty list")
      | _ :: ids => .ok ⟨ts, ids, dictDel ctx.args t⟩
    else .error (.keyError t)

end ParsingContext

/-! ## SwaggerProcessor (`processors.py` lines 78-240)

A processor is the tuple of its hooks. The source invokes each hook as
`self.process_xxx(**context.args)`, binding exactly the ancestor nodes pushed
so far (plus the context); the model passes those nodes positionally, in the
source's parameter order. A Python hook mutates the received nodes in place;
a modelled hook returns the updated nodes, and the walk threads them and
writes child lists back into their parents at the end of each loop — which
matches the in-place aliasing as long as hooks only update fields of the
nodes they receive (as every processor in the repository does). -/

structure SwaggerProcessor where
  process_resource_listing :
    PyVal → ParsingContext → Except PyErr PyVal
  process_resource_listing_api :
    PyVal → PyVal → ParsingContext → Except PyErr (PyVal × PyVal)
  process_api_declaration :
    PyVal → PyVal → ParsingContext → Except PyErr (PyVal × PyVal)
  process_resource_api :
    PyVal → PyVal → PyVal → ParsingContext → Except PyErr (PyVal × PyVal × PyVal)
  process_operation :
    PyVal → PyVal → PyVal → PyVal → ParsingContext →
      Except PyErr (PyVal × PyVal × PyVal × PyVal)
  process_parameter :
    PyVal → PyVal → PyVal → PyVal → PyVal → ParsingContext →
      Except PyErr (PyVal × PyVal × PyVal × PyVal × PyVal)
  process_error_response :
    PyVal → PyVal → PyVal → PyVal → PyVal → ParsingContext →
      Except PyErr (PyVal × PyVal × PyVal × PyVal × PyVal)
  process_model :
    PyVal → PyVal → PyVal → ParsingContext → Except PyErr (PyVal × PyVal × PyVal)
  process_property :
    PyVal → PyVal → PyVal → PyVal → ParsingContext →
      Except PyErr (PyVal × PyVal × PyVal × PyVal)

/-- The walk computation: an `Except` result plus the list of context states
observed after every push and every pop (the "points during the walk"). -/
def WalkM (α : Type) : Type := Except PyErr α × List ParsingContext

/-- Sequencing of walk steps: short-circuit on error, concatenate traces. -/
def bindW {α β : Type} (x : WalkM α) (f : α → WalkM β) : WalkM β :=
  match x with
  | (.error e, tr) => (.error e, tr)
  | (.ok a, tr) => ((f a).1, tr ++ (f a).2)

instance : Monad WalkM where
  pure a := (.ok a, [])
  bind := bindW

/-- A plain `Except` step (no context change, no trace entry). -/
def liftW {α : Type} (x : Except PyErr α) : WalkM α := (x, [])

/-- A `push` step, recording the context it produces. -/
def pushW (ctx : ParsingContext) (t : String) (node : PyVal) (f : String) :
    WalkM ParsingContext :=
  match ctx.push t node f with
  | .error e => (.error e, [])
  | .ok c => (.ok c, [c])

/-- A `push_str` step, recording the context it produces. -/
def pushStrW (ctx : ParsingContext) (t : String) (node : PyVal) (id : PyVal) :
    WalkM ParsingContext :=
  (.ok (ctx.push_str t node id), [ctx.push_str t node id])

/-- A `pop` step, recording the context it produces. -/
def popW (ctx : ParsingContext) : WalkM ParsingContext :=
  match ctx.pop with
  | .error e => (.error e, [])
  | .ok c => (.ok c, [c])

/-- The `for parameter in operation.get('parameters', [])` loop of `apply`
(lines 113-116): push `parameter` by its `name`, invoke the hook, pop. -/
def walkParameters (proc : SwaggerProcessor) (resources resource api operation : PyVal)
    (ps : List PyVal) (ctx : ParsingContext) :
    WalkM (PyVal × PyVal × PyVal × PyVal × List PyVal × ParsingContext) :=
  match ps with
  | [] => pure (resources, resource, api, operation, [], ctx)
  | p :: rest => do
    let ctx1 ← pushW ctx "parameter" p "name"
    let (r1, rs1, a1, o1, p1) ←
      liftW (proc.process_parameter resources resource api operation p ctx1)
    let ctx2 ← popW ctx1
    let (r2, rs2, a2, o2, ps2, ctx3) ← walkParameters proc r1 rs1 a1 o1 rest ctx2
    pure (r2, rs2, a2, o2, p1 :: ps2, ctx3)

/-- The `for response in operation.get('errorResponses', [])` loop of `apply`
(lines 117-120): push `error_response` by its `code`, invoke the hook, pop. -/
def walkErrorResponses (proc : SwaggerProcessor) (resources resource api operation : PyVal)
    (ers : List PyVal) (ctx : ParsingContext) :
    WalkM (PyVal × PyVal × PyVal × PyVal × List PyVal × ParsingContext) :=
  match ers with
  | [] => pure (resources, resource, api, operation, [], ctx)
  | er :: rest => do
    let ctx1 ← pushW ctx "error_response" er "code"
    let (r1, rs1, a1, o1, er1) ←
      liftW (proc.process_error_response resources resource api operation er ctx1)
    let ctx2 ← popW ctx1
    let (r2, rs2, a2, o2, ers2, ctx3) ← walkErrorResponses proc r1 rs1 a1 o1 rest ctx2
    pure (r2, rs2, a2, o2, er1 :: ers2, ctx3)

/-- The `for operation in api['operations']` loop of `apply` (lines 110-121). -/
def walkOperations (proc : SwaggerProcessor) (resources resource api : PyVal)
    (ops : List PyVal) (ctx : ParsingContext) :
    WalkM (PyVal × PyVal × PyVal × List PyVal × ParsingContext) :=
  match ops with
  | [] => pure (resources, resource, api, [], ctx)
  | op :: rest => do
    let ctx1 ← pushW ctx "operation" op "nickname"
    let (r1, rs1, a1, o1) ← liftW (proc.process_operation resources resource api op ctx1)
    let ps ← liftW (getSeqDefault o1 "parameters")
    let (r2, rs2, a2, o2, ps2, ctx2) ← walkParameters proc r1 rs1 a1 o1 ps ctx1
    let o2w := if pyHasKey o2 "parameters" then pySetItem o2 "parameters" (.list ps2) else o2
    let ers ← liftW (getSeqDefault o2w "errorResponses")
    let (r3, rs3, a3, o3, ers2, ctx3) ← walkErrorResponses proc r2 rs2 a2 o2w ers ctx2
    let o3w :=
      if pyHasKey o3 "errorResponses" then pySetItem o3 "errorResponses" (.list ers2) else o3
    let ctx4 ← popW ctx3
    let (r4, rs4, a4, ops2, ctx5) ← walkOperations proc r3 rs3 a3 rest ctx4
    pure (r4, rs4, a4, o3w :: ops2, ctx5)

/-- The `for api in listing_api['api_declaration']['apis']` loop of `apply`
(lines 107-122). -/
def walkApis (proc : SwaggerProcessor) (resources resource : PyVal)
    (apis : List PyVal) (ctx : ParsingContext) :
    WalkM (PyVal × PyVal × List PyVal × ParsingContext) :=
  match apis with
  | [] => pure (resources, resource, [], ctx)
  | api :: rest => do
    let ctx1 ← pushW ctx "api" api "path"
    let (r1, rs1, a1) ← liftW (proc.process_resource_api resources resource api ctx1)
    let ops ← liftW (getSeq a1 "operations")
    let (r2, rs2, a2, ops2, ctx2) ← walkOperations proc r1 rs1 a1 ops ctx1
    let a3 := pySetItem a2 "operations" (.list ops2)
    let ctx3 ← popW ctx2
    let (r3, rs3, apis2, ctx4) ← walkApis proc r2 rs2 rest ctx3
    pure (r3, rs3, a3 :: apis2, ctx4)

/-- The `for (name, prop) in list(model['properties'].items())` loop of
`apply` (lines 127-130): push `prop` by its `name` field, keyed writeback. -/
def walkProps (proc : SwaggerProcessor) (resources resource model : PyVal)
    (props : PyDict) (ctx : ParsingContext) :
    WalkM (PyVal × PyVal × PyVal × PyDict × ParsingContext) :=
  match props with
  | [] => pure (resources, resource, model, [], ctx)
  | (pname, prop) :: rest => do
    let ctx1 ← pushW ctx "prop" prop "name"
    let (r1, rs1, m1, p1) ← liftW (proc.process_property resources resource model prop ctx1)
    let ctx2 ← popW ctx1
    let (r2, rs2, m2, props2, ctx3) ← walkProps proc r1 rs1 m1 rest ctx2
    pure (r2, rs2, m2, (pname, p1) :: props2, ctx3)

/-- The `for (name, model) in list(models.items())` loop of `apply`
(lines 124-131): push `model` by its `id` field. -/
def walkModels (proc : SwaggerProcessor) (resources resource : PyVal)
    (ms : PyDict) (ctx : ParsingContext) :
    WalkM (PyVal × PyVal × PyDict × ParsingContext) :=
  match ms with
  | [] => pure (resources, resource, [], ctx)
  | (name, model) :: rest => do
    let ctx1 ← pushW ctx "model" model "id"
    let (r1, rs1, m1) ← liftW (proc.process_model resources resource model ctx1)
    let props ← liftW (getItemsReq m1 "properties")
    let (r2, rs2, m2, props2, ctx2) ← walkProps proc r1 rs1 m1 props ctx1
    let m3 := pySetItem m2 "properties" (.dict props2)
    let ctx3 ← popW ctx2
    let (r3, rs3, ms2, ctx4) ← walkModels proc r2 rs2 rest ctx3
    pure (r3, rs3, (name, m3) :: ms2, ctx4)

/-- The `for listing_api in resources['apis']` loop of `apply`
(lines 98-132): listing-api hook between a push/pop pair, then the
declaration pushed as `resource` for the api and model walks, then popped. -/
def walkListingApis (proc : SwaggerProcessor) (resources : PyVal)
    (las : List PyVal) (ctx : ParsingContext) :
    WalkM (PyVal × List PyVal × ParsingContext) :=
  match las with
  | [] => pure (resources, [], ctx)
  | la :: rest => do
    let ctx1 ← pushW ctx "listing_api" la "path"
    let (r1, la1) ← liftW (proc.process_resource_listing_api resources la ctx1)
    let ctx2 ← popW ctx1
    let api_url ← liftW (getOrDefault la1 "url" (.str "json:api_declaration"))
    let decl ← liftW (getItem la1 "api_declaration")
    let ctx3 ← pushStrW ctx2 "resource" decl api_url
    let (r2, decl1) ← liftW (proc.process_api_declaration r1 decl ctx3)
    let apis ← liftW (getSeq decl1 "apis")
    let (r3, decl2, apis2, ctx4) ← walkApis proc r2 decl1 apis ctx3
    let decl3 := pySetItem decl2 "apis" (.list apis2)
    let ms ← liftW (getItemsDefault decl3 "models")
    let (r4, decl4, ms2, ctx5) ← walkModels proc r3 decl3 ms ctx4
    let decl5 := if pyHasKey decl4 "models" then pySetItem decl4 "models" (.dict ms2) else decl4
    let ctx6 ← popW ctx5
    let la2 := pySetItem la1 "api_declaration" decl5
    let (r5, las2, ctx7) ← walkListingApis proc r4 rest ctx6
    pure (r5, la2 :: las2, ctx7)

/-- The body of `SwaggerProcessor.apply` (lines 91-133) up to but excluding
the final `assert context.is_empty()`: the full walk, returning the enriched
document and the context left after the last pop. -/
def SwaggerProcessor.walk (proc : SwaggerProcessor) (resources : PyVal) :
    WalkM (PyVal × ParsingContext) := do
  let resources_url ← liftW (getOrDefault resources "url" (.str "json:resource_listing"))
  let ctx1 ← pushStrW ParsingContext.init "resources" resources resources_url
  let resources1 ← liftW (proc.process_resource_listing resources ctx1)
  let las ← liftW (getSeq resources1 "apis")
  let (resources2, las2, ctx2) ← walkListingApis proc resources1 las ctx1
  let resources3 := pySetItem resources2 "apis" (.list las2)
  let ctx3 ← popW ctx2
  pure (resources3, ctx3)

/-- `SwaggerProcessor.apply` (lines 85-134): the walk followed by the fatal
assertion `assert context.is_empty()` (its message's `%r` rendering of the
context is elided). -/
def SwaggerProcessor.apply (proc : SwaggerProcessor) (resources : PyVal) :
    WalkM (PyVal × ParsingContext) :=
  match proc.walk resources with
  | (.ok (doc, ctx), tr) =>
    if ctx.is_empty then (.ok (doc, ctx), tr)
    else (.error (.assertionError "Expected context to be empty"), tr)
  | out => out

/-- The base `SwaggerProcessor` class: every hook is a no-op `pass`. -/
def baseProcessor : SwaggerProcessor where
  process_resource_listing := fun resources _ => .ok resources
  process_resource_listing_api := fun resources listing_api _ => .ok (resources, listing_api)
  process_api_declaration := fun resources resource _ => .ok (resources, resource)
  process_resource_api := fun resources resource api _ => .ok (resources, resource, api)
  process_operation := fun resources resource api operation _ =>
    .ok (resources, resource, api, operation)
  process_parameter := fun resources resource api operation parameter _ =>
    .ok (resources, resource, api, operation, parameter)
  process_error_response := fun resources resource api operation error_response _ =>
    .ok (resources, resource, api, operation, error_response)
  process_model := fun resources resource model _ => .ok (resources, resource, model)
  process_property := fun resources resource model prop _ =>
    .ok (resources, resource, model, prop)

/-- The `TypeError` message CPython produces for
`SwaggerError("upgrade: ...", context)`: `SwaggerError` (processors.py line
71) is declared with one parameter but called with two, so the call itself
raises before any exception carrying the intended message exists. (Even a
one-argument call could not produce the intended error: `SwaggerError` is an
`async def`, so `raise SwaggerError(...)` would raise a coroutine, again a
`TypeError`.) -/
def swaggerErrorArityMsg : String :=
  "SwaggerError() takes 1 positional argument but 2 were given"

/-- The message the source intends to signal (processors.py line 258); never
actually raised, see `swaggerErrorArityMsg`. -/
def websocketUpgradeMsg : String :=
  "upgrade: websocket is only valid on GET operations"

/-- `WebsocketProcessor` (processors.py lines 244-260): `process_resource_api`
defaults `has_websocket` to false; `process_operation` derives
`is_websocket`, marks the owning api entry, and attempts to raise on a
non-GET websocket operation (which raises the arity `TypeError`). -/
def websocketProcessor : SwaggerProcessor :=
  { baseProcessor with
    process_resource_api := fun resources resource api _ =>
      match api with
      | .dict d => .ok (resources, resource, .dict (dictSetDefault d "has_websocket" (.bool false)))
      | _ => .error (.attributeError "object has no attribute setdefault")
    process_operation := fun resources resource api operation _ =>
      match operation with
      | .dict od =>
        let is_ws : Bool :=
          match dictGet? od "upgrade" with
          | some (.str s) => s = "websocket"
          | _ => false
        let od1 := dictSet od "is_websocket" (.bool is_ws)
        if is_ws then
          match api with
          | .dict ad =>
            let ad1 := dictSet ad "has_websocket" (.bool true)
            match dictGet? od1 "httpMethod" with
            | Option.none => .error (.keyError "httpMethod")
            | some m =>
              if (match m with | .str s => s == "GET" | _ => false) then
                .ok (resources, resource, .dict ad1, .dict od1)
              else .error (.typeError swaggerErrorArityMsg)
          | _ => .error (.typeError "object does not support item assignment")
        else .ok (resources, resource, api, .dict od1)
      | _ => .error (.typeError "object does not support item assignment") }

/-! ## Operation invocation (`client.py` lines 28-109)

`Operation.__call__` resolves the call-time keyword arguments against the
declared parameter list, then dispatches to the transport. The declaration
fields the source reads (`nickname`, `httpMethod`, `parameters`, each
parameter's `name`/`paramType`/`required`, and the enrichment-derived
`is_websocket`) are modelled as typed fields — they are exactly the
recognized fields of spec §6. Keyword arguments are an association list with
distinct keys (CPython guarantees keyword names are unique). -/

/-- One declared parameter: the fields `Operation.__call__` reads. -/
structure Param where
  name : String
  paramType : String
  required : Bool
deriving Repr, DecidableEq

/-- The operation declaration fields `Operation.__call__` reads
(`self.json`). -/
structure OperationJson where
  nickname : String
  httpMethod : String
  parameters : List Param
  is_websocket : Bool
deriving Repr, DecidableEq

/-- An `Operation` client object: base URI plus its declaration (the
transport handle is the call's codomain, not state). -/
structure Operation where
  uri : String
  json : OperationJson
deriving Repr, DecidableEq

/-- Call-time keyword arguments. -/
abbrev Kwargs := List (String × PyVal)

/-- `kwargs.get(pname)`: `None` when the name is absent. -/
def kwGet (kw : Kwargs) (pname : String) : PyVal :=
  match kw with
  | [] => .none
  | (k, v) :: rest => if k = pname then v else kwGet rest pname

/-- `del kwargs[pname]`. -/
def kwDel (kw : Kwargs) (pname : String) : Kwargs :=
  kw.filter (fun kv => !(kv.1 = pname : Bool))

/-- `",".join(value)` for a list argument (client.py line 57): joins string
elements; a non-string element raises `TypeError` (CPython's message names
the offending index and type, elided here). -/
def joinComma (xs : List PyVal) : Except PyErr String :=
  match xs with
  | [] => .ok ""
  | [.str s] => .ok s
  | .str s :: rest =>
    match joinComma rest with
    | .error e => .error e
    | .ok r => .ok (s ++ "," ++ r)
  | _ => .error (.typeError "sequence item: expected str instance")

/-- Lines 54-57: fetch the argument and collapse a list value to one
comma-joined string. -/
def normalizeArg (kw : Kwargs) (pname : String) : Except PyErr PyVal :=
  match kwGet kw pname with
  | .list xs =>
    match joinComma xs with
    | .error e => .error e
    | .ok s => .ok (.str s)
  | v => .ok v

/-- `"Missing required parameter '<p>' for '<nick>'"` (line 82). -/
def missingParamMsg (pname nick : String) : String :=
  "Missing required parameter " ++ sq ++ pname ++ sq ++ " for " ++ sq ++ nick ++ sq

/-- `"Parameters of type 'body' require dict input"` (line 73). -/
def bodyDictMsg : String :=
  "Parameters of type " ++ sq ++ "body" ++ sq ++ " require dict input"

/-- `"'<nick>' does not have parameters [...]"` (line 85), with `%r` of the
leftover key list. -/
def leftoverMsg (nick : String) (names : List String) : String :=
  sq ++ nick ++ sq ++ " does not have parameters " ++
    "[" ++ pyReprList (names.map PyVal.str) ++ "]"

/-- `"name 'json' is not defined"`: `client.py` never imports the `json`
module, so evaluating `json.dumps(data)` at line 91 raises `NameError`. -/
def jsonNameErrMsg : String :=
  "name " ++ sq ++ "json" ++ sq ++ " is not defined"

/-- `"Sending body data with websockets not implmented"` (line 100, typo in
the source); unreachable, see `jsonNameErrMsg`. -/
def wsBodyMsg : String :=
  "Sending body data with websockets not implmented"

/-- Replacement loop for `pyReplace`, with fuel `n` (initially the string
length, enough for every step since a non-empty pattern consumes at least
one character per match). -/
def replaceFuel (pat rep : List Char) : Nat → List Char → List Char
  | _, [] => []
  | 0, s => s
  | n + 1, c :: rest =>
    if !pat.isEmpty && pat.isPrefixOf (c :: rest) then
      rep ++ replaceFuel pat rep n ((c :: rest).drop pat.length)
    else c :: replaceFuel pat rep n rest

/-- Python `s.replace(pat, rep)`: every non-overlapping occurrence, scanning
left to right. (For the empty pattern — which never occurs here, the
placeholder always being `"\x7b" ++ name ++ "\x7d"` — this returns `s`
unchanged.) -/
def pyReplace (s pat rep : String) : String :=
  ⟨replaceFuel pat.data rep.data s.data.length s.data⟩

/-- `re.sub('^http', "ws", uri)` (client.py line 97): the anchored pattern
rewrites at most the leading `http` (so `https://` becomes `wss://`). -/
def wsScheme (uri : String) : String :=
  match uri.data with
  | 'h' :: 't' :: 't' :: 'p' :: rest => ⟨'w' :: 's' :: rest⟩
  | _ => uri

/-- What the invocation hands the transport collaborator: either
`http_client.request(method, uri, params=..., data=..., headers=...)` or
`http_client.ws_connect(uri, params=...)`. -/
inductive TransportCall where
  | request (method uri : String) (params : PyDict) (data : PyVal) (headers : PyVal)
  | wsConnect (uri : String) (params : PyDict)
deriving Repr

/-- One iteration of the parameter loop (lines 52-83) on the working state
`(uri, params, data, kwargs)`:
route a present argument by `paramType` and consume it, or fail on an absent
required parameter. -/
def bindOne (nick : String) (uri : String) (params : PyDict)
    (data : Option PyDict) (kw : Kwargs) (p : Param) :
    Except PyErr (String × PyDict × Option PyDict × Kwargs) :=
  match normalizeArg kw p.name with
  | .error e => .error e
  | .ok value =>
  -- `if value is not None:` — the falsy branch (lines 79-83) checks
  -- `required`, the truthy branch (lines 59-78) routes and consumes.
  if value.isNone then
    if p.required then .error (.typeError (missingParamMsg p.name nick))
    else .ok (uri, params, data, kw)
  else
    if p.paramType = "path" then
      .ok (pyReplace uri ("\x7b" ++ p.name ++ "\x7d") (quotePlus (pyStr value)),
        params, data, kwDel kw p.name)
    else if p.paramType = "query" then
      .ok (uri, dictSet params p.name value, data, kwDel kw p.name)
    else if p.paramType = "body" then
      match value with
      | .dict d2 =>
        -- `if data: data.update(value) else: data = value` — note an empty
        -- dict is falsy, so it is replaced rather than updated.
        let data' :=
          match data with
          | some d => if d.isEmpty then some d2 else some (dictUpdate d d2)
          | Option.none => some d2
        .ok (uri, params, data', kwDel kw p.name)
      | _ => .error (.typeError bodyDictMsg)
    else .error (.assertionError ("Unsupported paramType " ++ p.paramType))

/-- The whole parameter loop (lines 52-83), in declaration order. -/
def bindParams (nick : String) (ps : List Param) (uri : String) (params : PyDict)
    (data : Option PyDict) (kw : Kwargs) :
    Except PyErr (String × PyDict × Option PyDict × Kwargs) :=
  match ps with
  | [] => .ok (uri, params, data, kw)
  | p :: rest =>
    match bindOne nick uri params data kw p with
    | .error e => .error e
    | .ok (uri1, params1, data1, kw1) => bindParams nick rest uri1 params1 data1 kw1

/-- `if data:` truthiness of the accumulated body (line 90/98): `None` and
the empty dict are falsy. -/
def dataTruthy (data : Option PyDict) : Bool :=
  match data with
  | some d => !d.isEmpty
  | Option.none => false

/-- The body value as it would be handed to the transport. -/
def dataVal (data : Option PyDict) : PyVal :=
  match data with
  | some d => .dict d
  | Option.none => .none

/-- `Operation.__call__` (lines 40-109): bind the keyword arguments, reject
leftovers, then dispatch. The `if data:` block at lines 90-93 evaluates
`json.dumps(data)` first; since `client.py` never imports `json`, any truthy
body raises `NameError` there — so the headers assignment at lines 92-93
(key `'Content-type'`, lowercase `t`) and the websocket body rejection at
lines 98-100 are unreachable, and `headers` is still `None` at every reached
transport call. -/
def Operation.call (self : Operation) (kw : Kwargs) : Except PyErr TransportCall :=
  match bindParams self.json.nickname self.json.parameters self.uri [] Option.none kw with
  | .error e => .error e
  | .ok (uri, params, data, kw1) =>
  if !kw1.isEmpty then
    .error (.typeError (leftoverMsg self.json.nickname (kw1.map Prod.fst)))
  else if dataTruthy data then
    .error (.nameError jsonNameErrMsg)
  else if self.json.is_websocket then
    let uri2 := wsScheme uri
    if dataTruthy data then .error (.notImplementedError wsBodyMsg)
    else .ok (.wsConnect uri2 params)
  else
    .ok (.request self.json.httpMethod uri params (dataVal data) .none)

/-! ## Concrete fixtures used by the evaluation theorems and witnesses -/

/-- The spec §8 scenario operation: `GET /pets/{id}` with one required path
parameter. -/
def petOp : Operation :=
  ⟨"http://h/pets/\x7bid\x7d", ⟨"getPet", "GET", [⟨"id", "path", true⟩], false⟩⟩

/-- An operation with a single optional body parameter. -/
def bodyOp : Operation := ⟨"http://h/pet", ⟨"addPet", "POST", [⟨"b", "body", false⟩], false⟩⟩

/-- An operation with no parameters. -/
def plainOp : Operation := ⟨"http://h/x", ⟨"getX", "GET", [], false⟩⟩

/-- An operation with two optional body parameters. -/
def mergeOp : Operation :=
  ⟨"/u", ⟨"m", "POST", [⟨"b1", "body", false⟩, ⟨"b2", "body", false⟩], false⟩⟩

/-- A websocket operation with an optional body parameter. -/
def wsOp : Operation := ⟨"http://h/events", ⟨"events", "GET", [⟨"b", "body", false⟩], true⟩⟩

/-- An operation whose body parameter precedes a required path parameter. -/
def c3cexOp : Operation :=
  ⟨"/x", ⟨"op", "GET", [⟨"b", "body", false⟩, ⟨"r", "path", true⟩], false⟩⟩

/-- An operation with a required parameter before an optional one. -/
def c10cexOp : Operation :=
  ⟨"/x", ⟨"op", "GET", [⟨"r", "query", true⟩, ⟨"n", "query", false⟩], false⟩⟩

/-- An operation with a single optional query parameter. -/
def c10Op : Operation := ⟨"/x", ⟨"op2", "GET", [⟨"n", "query", false⟩], false⟩⟩

/-- An operation with one optional query parameter, for surplus-argument
witnesses. -/
def c4Op : Operation := ⟨"/q", ⟨"op3", "GET", [⟨"a", "query", false⟩], false⟩⟩

/-- A minimal resource listing with no listing apis. -/
def emptyListingDoc : PyVal := .dict [("apis", .list [])]

/-- An operation declaration node with `upgrade: websocket` and a non-GET
method. -/
def wsOperationPOST : PyVal :=
  .dict [("nickname", .str "ws"), ("upgrade", .str "websocket"), ("httpMethod", .str "POST")]

/-- An operation declaration node with `upgrade: websocket` and method GET. -/
def wsOperationGET : PyVal :=
  .dict [("nickname", .str "ws"), ("upgrade", .str "websocket"), ("httpMethod", .str "GET")]

/-- An operation declaration node with an `upgrade` value other than
`websocket`. -/
def plainOperation : PyVal :=
  .dict [("nickname", .str "plain"), ("upgrade", .str "h2"), ("httpMethod", .str "POST")]

/-- A one-resource document holding the given single operation. -/
def docWith (operation : PyVal) : PyVal :=
  .dict [("apis", .list [
    .dict [("path", .str "/pets.json"), ("api_declaration",
      .dict [("basePath", .str "http://h"), ("apis", .list [
        .dict [("path", .str "/x"), ("operations", .list [operation])]])])]])]

/-- The document `websocketProcessor` produces from
`docWith wsOperationGET`: `is_websocket` set true on the operation and
`has_websocket` true on its api entry. -/
def docGETEnriched : PyVal :=
  .dict [("apis", .list [
    .dict [("path", .str "/pets.json"), ("api_declaration",
      .dict [("basePath", .str "http://h"), ("apis", .list [
        .dict [("path", .str "/x"), ("operations", .list [
          .dict [("nickname", .str "ws"), ("upgrade", .str "websocket"),
            ("httpMethod", .str "GET"), ("is_websocket", .bool true)]]),
          ("has_websocket", .bool true)]])])]])]

/-- The document `websocketProcessor` produces from
`docWith plainOperation`: `is_websocket` false, `has_websocket` false. -/
def docPlainEnriched : PyVal :=
  .dict [("apis", .list [
    .dict [("path", .str "/pets.json"), ("api_declaration",
      .dict [("basePath", .str "http://h"), ("apis", .list [
        .dict [("path", .str "/x"), ("operations", .list [
          .dict [("nickname", .str "plain"), ("upgrade", .str "h2"),
            ("httpMethod", .str "POST"), ("is_websocket", .bool false)]]),
          ("has_websocket", .bool false)]])])]])]

/-- Some declared parameter of `op` has the given name. -/
def declaredName (op : OperationJson) (k : String) : Bool :=
  op.parameters.any (fun p => p.name = k)

/-- The two context stacks have equal length (the per-point invariant of the
walk). -/
def stacksBalanced (c : ParsingContext) : Prop :=
  c.type_stack.length = c.id_stack.length

/-- The supplied argument for `p` binds without raising: it normalizes
(lists join), and when present it routes to `path`, `query`, or a
dict-valued `body`. -/
def bindsCleanly (kw : Kwargs) (p : Param) : Bool :=
  match normalizeArg kw p.name with
  | .error _ => false
  | .ok v =>
    v.isNone || p.paramType = "path" || p.paramType = "query" ||
      (p.paramType = "body" && v.isDict)

/-! ## Theorems -/

/-! ### Walk-monad decomposition lemmas (for the stack-balance claim) -/

/-- Decompose one sequencing step of the walk. -/
theorem bindW_eq {α β : Type} {x : WalkM α} {f : α → WalkM β}
    {res : Except PyErr β} {tr : List ParsingContext}
    (h : bindW x f = (res, tr)) :
    (∃ e, x = (.error e, tr) ∧ res = .error e) ∨
    (∃ a tra trb, x = (.ok a, tra) ∧ f a = (res, trb) ∧ tr = tra ++ trb) := by
  obtain ⟨xr, xtr⟩ := x
  cases xr with
  | error e =>
    simp only [bindW] at h
    obtain ⟨rfl, rfl⟩ := Prod.mk.injEq .. ▸ h
    exact Or.inl ⟨e, rfl, rfl⟩
  | ok a =>
    simp only [bindW] at h
    obtain ⟨h1, h2⟩ := Prod.mk.injEq .. ▸ h
    exact Or.inr ⟨a, xtr, (f a).2, rfl, by rw [← h1]; exact rfl, h2.symm⟩

/-- `do`-notation bind on `WalkM` is `bindW`. -/
theorem walkM_bind_def {α β : Type} (x : WalkM α) (f : α → WalkM β) :
    (x >>= f) = bindW x f := rfl

/-- A `pure` step yields its value with an empty trace. -/
theorem pureW_eq {α : Type} {a : α} {res : Except PyErr α} {tr : List ParsingContext}
    (h : (pure a : WalkM α) = (res, tr)) : res = .ok a ∧ tr = [] := by
  obtain ⟨h1, h2⟩ := Prod.mk.injEq .. ▸ h
  exact ⟨h1.symm, h2.symm⟩

/-- A lifted `Except` step yields its result with an empty trace. -/
theorem liftW_eq {α : Type} {x : Except PyErr α} {res : Except PyErr α}
    {tr : List ParsingContext} (h : liftW x = (res, tr)) : res = x ∧ tr = [] := by
  obtain ⟨h1, h2⟩ := Prod.mk.injEq .. ▸ h
  exact ⟨h1.symm, h2.symm⟩

/-- Decompose a `push` step. -/
theorem pushW_eq {ctx : ParsingContext} {t : String} {node : PyVal} {f : String}
    {res : Except PyErr ParsingContext} {tr : List ParsingContext}
    (h : pushW ctx t node f = (res, tr)) :
    (∃ e, ctx.push t node f = .error e ∧ res = .error e ∧ tr = []) ∨
    (∃ c, ctx.push t node f = .ok c ∧ res = .ok c ∧ tr = [c]) := by
  unfold pushW at h
  cases hp : ctx.push t node f with
  | error e =>
    rw [hp] at h
    obtain ⟨h1, h2⟩ := Prod.mk.injEq .. ▸ h
    exact Or.inl ⟨e, rfl, h1.symm, h2.symm⟩
  | ok c =>
    rw [hp] at h
    obtain ⟨h1, h2⟩ := Prod.mk.injEq .. ▸ h
    exact Or.inr ⟨c, rfl, h1.symm, h2.symm⟩

/-- Decompose a `push_str` step (it always succeeds). -/
theorem pushStrW_eq {ctx : ParsingContext} {t : String} {node id : PyVal}
    {res : Except PyErr ParsingContext} {tr : List ParsingContext}
    (h : pushStrW ctx t node id = (res, tr)) :
    res = .ok (ctx.push_str t node id) ∧ tr = [ctx.push_str t node id] := by
  obtain ⟨h1, h2⟩ := Prod.mk.injEq .. ▸ h
  exact ⟨h1.symm, h2.symm⟩

/-- Decompose a `pop` step. -/
theorem popW_eq {ctx : ParsingContext} {res : Except PyErr ParsingContext}
    {tr : List ParsingContext} (h : popW ctx = (res, tr)) :
    (∃ e, ctx.pop = .error e ∧ res = .error e ∧ tr = []) ∨
    (∃ c, ctx.pop = .ok c ∧ res = .ok c ∧ tr = [c]) := by
  unfold popW at h
  cases hp : ctx.pop with
  | error e =>
    rw [hp] at h
    obtain ⟨h1, h2⟩ := Prod.mk.injEq .. ▸ h
    exact Or.inl ⟨e, rfl, h1.symm, h2.symm⟩
  | ok c =>
    rw [hp] at h
    obtain ⟨h1, h2⟩ := Prod.mk.injEq .. ▸ h
    exact Or.inr ⟨c, rfl, h1.symm, h2.symm⟩

/-- A successful `push` conses one entry onto each stack. -/
theorem push_ok_stacks {ctx : ParsingContext} {t : String} {node : PyVal}
    {f : String} {ctx' : ParsingContext} (h : ctx.push t node f = .ok ctx') :
    ctx'.type_stack = t :: ctx.type_stack ∧ ∃ i, ctx'.id_stack = i :: ctx.id_stack := by
  unfold ParsingContext.push at h
  split at h
  · split at h
    · cases h
    · obtain rfl := Except.ok.inj h
      exact ⟨rfl, _, rfl⟩
  · cases h

/-- A successful `pop` removes one entry from each stack. -/
theorem pop_ok_stacks {ctx ctx' : ParsingContext} (h : ctx.pop = .ok ctx') :
    ∃ t ts i ids, ctx.type_stack = t :: ts ∧ ctx.id_stack = i :: ids ∧
      ctx'.type_stack = ts ∧ ctx'.id_stack = ids := by
  unfold ParsingContext.pop at h
  split at h
  · cases h
  · rename_i t ts heq
    split at h
    · split at h
      · cases h
      · rename_i i ids heq2
        obtain rfl := Except.ok.inj h
        exact ⟨t, ts, i, ids, heq, heq2, rfl, rfl⟩
    · cases h

/-- A successful `push` preserves stack balance. -/
theorem push_ok_balanced {ctx : ParsingContext} {t : String} {node : PyVal}
    {f : String} {ctx' : ParsingContext} (h : ctx.push t node f = .ok ctx')
    (hb : stacksBalanced ctx) : stacksBalanced ctx' := by
  obtain ⟨h1, i, h2⟩ := push_ok_stacks h
  unfold stacksBalanced at *
  rw [h1, h2]
  simp [hb]

/-- A successful `pop` preserves stack balance. -/
theorem pop_ok_balanced {ctx ctx' : ParsingContext} (h : ctx.pop = .ok ctx')
    (hb : stacksBalanced ctx) : stacksBalanced ctx' := by
  obtain ⟨t, ts, i, ids, h1, h2, h3, h4⟩ := pop_ok_stacks h
  unfold stacksBalanced at *
  rw [h1, h2] at hb
  rw [h3, h4]
  simpa using hb

/-- `push` then a successful `pop` restores both stacks. -/
theorem pop_after_push_stacks {ctx : ParsingContext} {t : String} {node : PyVal}
    {f : String} {ctx1 ctx2 : ParsingContext} (hpush : ctx.push t node f = .ok ctx1)
    (hpop : ctx1.pop = .ok ctx2) :
    ctx2.type_stack = ctx.type_stack ∧ ctx2.id_stack = ctx.id_stack := by
  obtain ⟨h1, i, h2⟩ := push_ok_stacks hpush
  obtain ⟨t', ts, i', ids, h3, h4, h5, h6⟩ := pop_ok_stacks hpop
  rw [h1] at h3
  rw [h2] at h4
  cases h3
  cases h4
  exact ⟨h5, h6⟩

/-- Stack balance transports along stack equality. -/
theorem balanced_of_stacks_eq {c d : ParsingContext}
    (h1 : c.type_stack = d.type_stack) (h2 : c.id_stack = d.id_stack)
    (hb : stacksBalanced d) : stacksBalanced c := by
  unfold stacksBalanced at *
  rw [h1, h2]
  exact hb

/-- Balance and restoration for the parameter loop: every context recorded in
the trace stays balanced, and a successful pass returns the stacks exactly as
it received them. -/
theorem walkParameters_spec (proc : SwaggerProcessor) :
    ∀ (ps : List PyVal) (resources resource api operation : PyVal)
      (ctx : ParsingContext)
      (res : Except PyErr (PyVal × PyVal × PyVal × PyVal × List PyVal × ParsingContext))
      (tr : List ParsingContext),
      walkParameters proc resources resource api operation ps ctx = (res, tr) →
      (stacksBalanced ctx → ∀ c ∈ tr, stacksBalanced c) ∧
      (∀ out, res = .ok out →
        out.2.2.2.2.2.type_stack = ctx.type_stack ∧
        out.2.2.2.2.2.id_stack = ctx.id_stack)
  | [], resources, resource, api, operation, ctx, res, tr, h => by
      unfold walkParameters at h
      obtain ⟨rfl, rfl⟩ := pureW_eq h
      refine ⟨fun _ c hc => absurd hc (List.not_mem_nil c), fun out hout => ?_⟩
      obtain rfl := Except.ok.inj hout
      exact ⟨rfl, rfl⟩
  | p :: rest, resources, resource, api, operation, ctx, res, tr, h0 => by
      unfold walkParameters at h0
      simp only [walkM_bind_def] at h0
      rcases bindW_eq h0 with ⟨e, hx, rfl⟩ | ⟨ctx1, tra, trb, hx, h1, rfl⟩
      · rcases pushW_eq hx with ⟨e', hpush, -, rfl⟩ | ⟨c1, -, heq, -⟩
        · exact ⟨fun _ c hc => absurd hc (List.not_mem_nil c), fun out hout => by cases hout⟩
        · cases heq
      · rcases pushW_eq hx with ⟨e', -, heqp, -⟩ | ⟨c1, hpush, heqp, rfl⟩
        · cases heqp
        · obtain rfl := Except.ok.inj heqp
          rcases bindW_eq h1 with ⟨e, hx2, rfl⟩ | ⟨t5, tra2, trb2, hx2, h2, rfl⟩
          · obtain ⟨-, rfl⟩ := liftW_eq hx2
            refine ⟨fun hb c hc => ?_, fun out hout => by cases hout⟩
            simp only [List.append_nil, List.mem_singleton] at hc
            subst hc
            exact push_ok_balanced hpush hb
          · obtain ⟨-, rfl⟩ := liftW_eq hx2
            rcases bindW_eq h2 with ⟨e, hx3, rfl⟩ | ⟨ctx2, tra3, trb3, hx3, h3, rfl⟩
            · rcases popW_eq hx3 with ⟨e', hpop, -, rfl⟩ | ⟨c2, -, heqq, -⟩
              · refine ⟨fun hb c hc => ?_, fun out hout => by cases hout⟩
                simp only [List.nil_append, List.append_nil, List.mem_singleton] at hc
                subst hc
                exact push_ok_balanced hpush hb
              · cases heqq
            · rcases popW_eq hx3 with ⟨e', -, heqq, -⟩ | ⟨c2, hpop, heqq, rfl⟩
              · cases heqq
              · obtain rfl := Except.ok.inj heqq
                rcases hrec : walkParameters proc t5.1 t5.2.1 t5.2.2.1 t5.2.2.2.1
                    rest ctx2 with ⟨res', tr'⟩
                rcases bindW_eq h3 with ⟨e, hx4, rfl⟩ | ⟨t6, tra4, trb4, hx4, h4, rfl⟩
                · rw [hrec] at hx4
                  obtain ⟨heq5, heq6⟩ := Prod.mk.injEq .. ▸ hx4
                  subst heq6
                  obtain ⟨ihb, -⟩ := walkParameters_spec proc rest t5.1 t5.2.1 t5.2.2.1
                    t5.2.2.2.1 ctx2 _ _ hrec
                  refine ⟨fun hb c hc => ?_, fun out hout => by cases hout⟩
                  have hb1 := push_ok_balanced hpush hb
                  have hb2 := pop_ok_balanced hpop hb1
                  have hc' : c = ctx1 ∨ c = ctx2 ∨ c ∈ tr' := by simpa using hc
                  rcases hc' with rfl | rfl | hc'
                  · exact hb1
                  · exact hb2
                  · exact ihb hb2 c hc'
                · rw [hrec] at hx4
                  obtain ⟨heq5, heq6⟩ := Prod.mk.injEq .. ▸ hx4
                  subst heq6
                  obtain ⟨rfl, rfl⟩ := pureW_eq h4
                  obtain ⟨ihb, ihr⟩ := walkParameters_spec proc rest t5.1 t5.2.1 t5.2.2.1
                    t5.2.2.2.1 ctx2 _ _ hrec
                  constructor
                  · intro hb c hc
                    have hb1 := push_ok_balanced hpush hb
                    have hb2 := pop_ok_balanced hpop hb1
                    have hc' : c = ctx1 ∨ c = ctx2 ∨ c ∈ tr' := by simpa using hc
                    rcases hc' with rfl | rfl | hc'
                    · exact hb1
                    · exact hb2
                    · exact ihb hb2 c hc'
                  · intro out hout
                    obtain rfl := (Except.ok.inj hout).symm
                    obtain ⟨hr1, hr2⟩ := ihr t6 heq5
                    obtain ⟨hs1, hs2⟩ := pop_after_push_stacks hpush hpop
                    exact ⟨hr1.trans hs1, hr2.trans hs2⟩

/-- Balance and restoration for the error-response loop. -/
theorem walkErrorResponses_spec (proc : SwaggerProcessor) :
    ∀ (ers : List PyVal) (resources resource api operation : PyVal)
      (ctx : ParsingContext)
      (res : Except PyErr (PyVal × PyVal × PyVal × PyVal × List PyVal × ParsingContext))
      (tr : List ParsingContext),
      walkErrorResponses proc resources resource api operation ers ctx = (res, tr) →
      (stacksBalanced ctx → ∀ c ∈ tr, stacksBalanced c) ∧
      (∀ out, res = .ok out →
        out.2.2.2.2.2.type_stack = ctx.type_stack ∧
        out.2.2.2.2.2.id_stack = ctx.id_stack)
  | [], resources, resource, api, operation, ctx, res, tr, h => by
      unfold walkErrorResponses at h
      obtain ⟨rfl, rfl⟩ := pureW_eq h
      refine ⟨fun _ c hc => absurd hc (List.not_mem_nil c), fun out hout => ?_⟩
      obtain rfl := Except.ok.inj hout
      exact ⟨rfl, rfl⟩
  | p :: rest, resources, resource, api, operation, ctx, res, tr, h0 => by
      unfold walkErrorResponses at h0
      simp only [walkM_bind_def] at h0
      rcases bindW_eq h0 with ⟨e, hx, rfl⟩ | ⟨ctx1, tra, trb, hx, h1, rfl⟩
      · rcases pushW_eq hx with ⟨e', hpush, -, rfl⟩ | ⟨c1, -, heq, -⟩
        · exact ⟨fun _ c hc => absurd hc (List.not_mem_nil c), fun out hout => by cases hout⟩
        · cases heq
      · rcases pushW_eq hx with ⟨e', -, heqp, -⟩ | ⟨c1, hpush, heqp, rfl⟩
        · cases heqp
        · obtain rfl := Except.ok.inj heqp
          rcases bindW_eq h1 with ⟨e, hx2, rfl⟩ | ⟨t5, tra2, trb2, hx2, h2, rfl⟩
          · obtain ⟨-, rfl⟩ := liftW_eq hx2
            refine ⟨fun hb c hc => ?_, fun out hout => by cases hout⟩
            simp only [List.append_nil, List.mem_singleton] at hc
            subst hc
            exact push_ok_balanced hpush hb
          · obtain ⟨-, rfl⟩ := liftW_eq hx2
            rcases bindW_eq h2 with ⟨e, hx3, rfl⟩ | ⟨ctx2, tra3, trb3, hx3, h3, rfl⟩
            · rcases popW_eq hx3 with ⟨e', hpop, -, rfl⟩ | ⟨c2, -, heqq, -⟩
              · refine ⟨fun hb c hc => ?_, fun out hout => by cases hout⟩
                simp only [List.nil_append, List.append_nil, List.mem_singleton] at hc
                subst hc
                exact push_ok_balanced hpush hb
              · cases heqq
            · rcases popW_eq hx3 with ⟨e', -, heqq, -⟩ | ⟨c2, hpop, heqq, rfl⟩
              · cases heqq
              · obtain rfl := Except.ok.inj heqq
                rcases hrec : walkErrorResponses proc t5.1 t5.2.1 t5.2.2.1 t5.2.2.2.1
                    rest ctx2 with ⟨res', tr'⟩
                rcases bindW_eq h3 with ⟨e, hx4, rfl⟩ | ⟨t6, tra4, trb4, hx4, h4, rfl⟩
                · rw [hrec] at hx4
                  obtain ⟨heq5, heq6⟩ := Prod.mk.injEq .. ▸ hx4
                  subst heq6
                  obtain ⟨ihb, -⟩ := walkErrorResponses_spec proc rest t5.1 t5.2.1 t5.2.2.1
                    t5.2.2.2.1 ctx2 _ _ hrec
                  refine ⟨fun hb c hc => ?_, fun out hout => by cases hout⟩
                  have hb1 := push_ok_balanced hpush hb
                  have hb2 := pop_ok_balanced hpop hb1
                  have hc' : c = ctx1 ∨ c = ctx2 ∨ c ∈ tr' := by simpa using hc
                  rcases hc' with rfl | rfl | hc'
                  · exact hb1
                  · exact hb2
                  · exact ihb hb2 c hc'
                · rw [hrec] at hx4
                  obtain ⟨heq5, heq6⟩ := Prod.mk.injEq .. ▸ hx4
                  subst heq6
                  obtain ⟨rfl, rfl⟩ := pureW_eq h4
                  obtain ⟨ihb, ihr⟩ := walkErrorResponses_spec proc rest t5.1 t5.2.1 t5.2.2.1
                    t5.2.2.2.1 ctx2 _ _ hrec
                  constructor
                  · intro hb c hc
                    have hb1 := push_ok_balanced hpush hb
                    have hb2 := pop_ok_balanced hpop hb1
                    have hc' : c = ctx1 ∨ c = ctx2 ∨ c ∈ tr' := by simpa using hc
                    rcases hc' with rfl | rfl | hc'
                    · exact hb1
                    · exact hb2
                    · exact ihb hb2 c hc'
                  · intro out hout
                    obtain rfl := (Except.ok.inj hout).symm
                    obtain ⟨hr1, hr2⟩ := ihr t6 heq5
                    obtain ⟨hs1, hs2⟩ := pop_after_push_stacks hpush hpop
                    exact ⟨hr1.trans hs1, hr2.trans hs2⟩


/-- Balance and restoration for the property loop. -/
theorem walkProps_spec (proc : SwaggerProcessor) :
    ∀ (props : PyDict) (resources resource model : PyVal)
      (ctx : ParsingContext)
      (res : Except PyErr (PyVal × PyVal × PyVal × PyDict × ParsingContext))
      (tr : List ParsingContext),
      walkProps proc resources resource model props ctx = (res, tr) →
      (stacksBalanced ctx → ∀ c ∈ tr, stacksBalanced c) ∧
      (∀ out, res = .ok out →
        out.2.2.2.2.type_stack = ctx.type_stack ∧
        out.2.2.2.2.id_stack = ctx.id_stack)
  | [], resources, resource, model, ctx, res, tr, h => by
      unfold walkProps at h
      obtain ⟨rfl, rfl⟩ := pureW_eq h
      refine ⟨fun _ c hc => absurd hc (List.not_mem_nil c), fun out hout => ?_⟩
      obtain rfl := Except.ok.inj hout
      exact ⟨rfl, rfl⟩
  | (pname, prop) :: rest, resources, resource, model, ctx, res, tr, h0 => by
      unfold walkProps at h0
      simp only [walkM_bind_def] at h0
      rcases bindW_eq h0 with ⟨e, hx, rfl⟩ | ⟨ctx1, tra, trb, hx, h1, rfl⟩
      · rcases pushW_eq hx with ⟨e', hpush, -, rfl⟩ | ⟨c1, -, heq, -⟩
        · exact ⟨fun _ c hc => absurd hc (List.not_mem_nil c), fun out hout => by cases hout⟩
        · cases heq
      · rcases pushW_eq hx with ⟨e', -, heqp, -⟩ | ⟨c1, hpush, heqp, rfl⟩
        · cases heqp
        · obtain rfl := Except.ok.inj heqp
          rcases bindW_eq h1 with ⟨e, hx2, rfl⟩ | ⟨t5, tra2, trb2, hx2, h2, rfl⟩
          · obtain ⟨-, rfl⟩ := liftW_eq hx2
            refine ⟨fun hb c hc => ?_, fun out hout => by cases hout⟩
            simp only [List.append_nil, List.mem_singleton] at hc
            subst hc
            exact push_ok_balanced hpush hb
          · obtain ⟨-, rfl⟩ := liftW_eq hx2
            rcases bindW_eq h2 with ⟨e, hx3, rfl⟩ | ⟨ctx2, tra3, trb3, hx3, h3, rfl⟩
            · rcases popW_eq hx3 with ⟨e', hpop, -, rfl⟩ | ⟨c2, -, heqq, -⟩
              · refine ⟨fun hb c hc => ?_, fun out hout => by cases hout⟩
                simp only [List.nil_append, List.append_nil, List.mem_singleton] at hc
                subst hc
                exact push_ok_balanced hpush hb
              · cases heqq
            · rcases popW_eq hx3 with ⟨e', -, heqq, -⟩ | ⟨c2, hpop, heqq, rfl⟩
              · cases heqq
              · obtain rfl := Except.ok.inj heqq
                rcases hrec : walkProps proc t5.1 t5.2.1 t5.2.2.1
                    rest ctx2 with ⟨res', tr'⟩
                rcases bindW_eq h3 with ⟨e, hx4, rfl⟩ | ⟨t6, tra4, trb4, hx4, h4, rfl⟩
                · rw [hrec] at hx4
                  obtain ⟨heq5, heq6⟩ := Prod.mk.injEq .. ▸ hx4
                  subst heq6
                  obtain ⟨ihb, -⟩ := walkProps_spec proc rest t5.1 t5.2.1
                    t5.2.2.1 ctx2 _ _ hrec
                  refine ⟨fun hb c hc => ?_, fun out hout => by cases hout⟩
                  have hb1 := push_ok_balanced hpush hb
                  have hb2 := pop_ok_balanced hpop hb1
                  have hc' : c = ctx1 ∨ c = ctx2 ∨ c ∈ tr' := by simpa using hc
                  rcases hc' with rfl | rfl | hc'
                  · exact hb1
                  · exact hb2
                  · exact ihb hb2 c hc'
                · rw [hrec] at hx4
                  obtain ⟨heq5, heq6⟩ := Prod.mk.injEq .. ▸ hx4
                  subst heq6
                  obtain ⟨rfl, rfl⟩ := pureW_eq h4
                  obtain ⟨ihb, ihr⟩ := walkProps_spec proc rest t5.1 t5.2.1
                    t5.2.2.1 ctx2 _ _ hrec
                  constructor
                  · intro hb c hc
                    have hb1 := push_ok_balanced hpush hb
                    have hb2 := pop_ok_balanced hpop hb1
                    have hc' : c = ctx1 ∨ c = ctx2 ∨ c ∈ tr' := by simpa using hc
                    rcases hc' with rfl | rfl | hc'
                    · exact hb1
                    · exact hb2
                    · exact ihb hb2 c hc'
                  · intro out hout
                    obtain rfl := (Except.ok.inj hout).symm
                    obtain ⟨hr1, hr2⟩ := ihr t6 heq5
                    obtain ⟨hs1, hs2⟩ := pop_after_push_stacks hpush hpop
                    exact ⟨hr1.trans hs1, hr2.trans hs2⟩

/-- Balance and restoration for the operation loop. -/
theorem walkOperations_spec (proc : SwaggerProcessor) :
    ∀ (ops : List PyVal) (resources resource api : PyVal) (ctx : ParsingContext)
      (res : Except PyErr (PyVal × PyVal × PyVal × List PyVal × ParsingContext))
      (tr : List ParsingContext),
      walkOperations proc resources resource api ops ctx = (res, tr) →
      (stacksBalanced ctx → ∀ c ∈ tr, stacksBalanced c) ∧
      (∀ out, res = .ok out →
        out.2.2.2.2.type_stack = ctx.type_stack ∧
        out.2.2.2.2.id_stack = ctx.id_stack)
  | [], resources, resource, api, ctx, res, tr, h => by
      unfold walkOperations at h
      obtain ⟨rfl, rfl⟩ := pureW_eq h
      refine ⟨fun _ c hc => absurd hc (List.not_mem_nil c), fun out hout => ?_⟩
      obtain rfl := Except.ok.inj hout
      exact ⟨rfl, rfl⟩
  | op :: rest, resources, resource, api, ctx, res, tr, h0 => by
      unfold walkOperations at h0
      simp only [walkM_bind_def] at h0
      rcases bindW_eq h0 with ⟨e, hx, rfl⟩ | ⟨ctx1, tra, trb, hx, h1, rfl⟩
      · rcases pushW_eq hx with ⟨e', hpush, -, rfl⟩ | ⟨c1, -, heqp, -⟩
        · exact ⟨fun _ c hc => absurd hc (List.not_mem_nil c), fun out hout => by cases hout⟩
        · cases heqp
      · rcases pushW_eq hx with ⟨e', -, heqp, -⟩ | ⟨c1, hpush, heqp, rfl⟩
        · cases heqp
        · obtain rfl := Except.ok.inj heqp
          rcases bindW_eq h1 with ⟨e, hx2, rfl⟩ | ⟨t4, tra2, trb2, hx2, h2, rfl⟩
          · obtain ⟨-, rfl⟩ := liftW_eq hx2
            refine ⟨fun hb c hc => ?_, fun out hout => by cases hout⟩
            have hc' : c = ctx1 := by simpa using hc
            subst hc'
            exact push_ok_balanced hpush hb
          · obtain ⟨-, rfl⟩ := liftW_eq hx2
            rcases bindW_eq h2 with ⟨e, hx3, rfl⟩ | ⟨ps, tra3, trb3, hx3, h3, rfl⟩
            · obtain ⟨-, rfl⟩ := liftW_eq hx3
              refine ⟨fun hb c hc => ?_, fun out hout => by cases hout⟩
              have hc' : c = ctx1 := by simpa using hc
              subst hc'
              exact push_ok_balanced hpush hb
            · obtain ⟨-, rfl⟩ := liftW_eq hx3
              rcases bindW_eq h3 with ⟨e, hx4, rfl⟩ | ⟨t6, tra4, trb4, hx4, h4, rfl⟩
              · obtain ⟨Pbal, -⟩ := walkParameters_spec proc _ _ _ _ _ _ _ _ hx4
                refine ⟨fun hb c hc => ?_, fun out hout => by cases hout⟩
                have hb1 := push_ok_balanced hpush hb
                have hc' : c = ctx1 ∨ c ∈ trb3 := by simpa using hc
                rcases hc' with rfl | hc'
                · exact hb1
                · exact Pbal hb1 c hc'
              · obtain ⟨Pbal, Pres⟩ := walkParameters_spec proc _ _ _ _ _ _ _ _ hx4
                have hctx2 := Pres t6 rfl
                rcases bindW_eq h4 with ⟨e, hx5, rfl⟩ | ⟨ers, tra5, trb5, hx5, h5, rfl⟩
                · obtain ⟨-, rfl⟩ := liftW_eq hx5
                  refine ⟨fun hb c hc => ?_, fun out hout => by cases hout⟩
                  have hb1 := push_ok_balanced hpush hb
                  have hc' : c = ctx1 ∨ c ∈ tra4 := by simpa using hc
                  rcases hc' with rfl | hc'
                  · exact hb1
                  · exact Pbal hb1 c hc'
                · obtain ⟨-, rfl⟩ := liftW_eq hx5
                  rcases bindW_eq h5 with ⟨e, hx6, rfl⟩ | ⟨t7, tra6, trb6, hx6, h6, rfl⟩
                  · obtain ⟨Ebal, -⟩ := walkErrorResponses_spec proc _ _ _ _ _ _ _ _ hx6
                    refine ⟨fun hb c hc => ?_, fun out hout => by cases hout⟩
                    have hb1 := push_ok_balanced hpush hb
                    have hb2 : stacksBalanced t6.2.2.2.2.2 :=
                      balanced_of_stacks_eq hctx2.1 hctx2.2 hb1
                    have hc' : c = ctx1 ∨ c ∈ tra4 ∨ c ∈ trb5 := by simpa using hc
                    rcases hc' with rfl | hc' | hc'
                    · exact hb1
                    · exact Pbal hb1 c hc'
                    · exact Ebal hb2 c hc'
                  · obtain ⟨Ebal, Eres⟩ := walkErrorResponses_spec proc _ _ _ _ _ _ _ _ hx6
                    have hctx3 := Eres t7 rfl
                    rcases bindW_eq h6 with ⟨e, hx7, rfl⟩ | ⟨ctx4, tra7, trb7, hx7, h7, rfl⟩
                    · rcases popW_eq hx7 with ⟨e', hpop, -, rfl⟩ | ⟨c4, -, heqq, -⟩
                      · refine ⟨fun hb c hc => ?_, fun out hout => by cases hout⟩
                        have hb1 := push_ok_balanced hpush hb
                        have hb2 : stacksBalanced t6.2.2.2.2.2 :=
                          balanced_of_stacks_eq hctx2.1 hctx2.2 hb1
                        have hc' : c = ctx1 ∨ c ∈ tra4 ∨ c ∈ tra6 := by simpa using hc
                        rcases hc' with rfl | hc' | hc'
                        · exact hb1
                        · exact Pbal hb1 c hc'
                        · exact Ebal hb2 c hc'
                      · cases heqq
                    · rcases popW_eq hx7 with ⟨e', -, heqq, -⟩ | ⟨c4, hpop, heqq, rfl⟩
                      · cases heqq
                      · obtain rfl := Except.ok.inj heqq
                        have hback : ctx4.type_stack = ctx.type_stack ∧
                            ctx4.id_stack = ctx.id_stack := by
                          obtain ⟨hts, i, his⟩ := push_ok_stacks hpush
                          obtain ⟨t', ts, i', ids, ha, hb', hc'', hd⟩ := pop_ok_stacks hpop
                          rw [hctx3.1, hctx2.1, hts] at ha
                          rw [hctx3.2, hctx2.2, his] at hb'
                          obtain ⟨-, ha2⟩ := List.cons.inj ha
                          obtain ⟨-, hb2⟩ := List.cons.inj hb'
                          rw [hc'', hd, ← ha2, ← hb2]
                          exact ⟨rfl, rfl⟩
                        rcases bindW_eq h7 with ⟨e, hx8, rfl⟩ | ⟨t8, tra8, trb8, hx8, h8, rfl⟩
                        · obtain ⟨Rbal, -⟩ := walkOperations_spec proc rest _ _ _ _ _ _ hx8
                          refine ⟨fun hb c hc => ?_, fun out hout => by cases hout⟩
                          have hb1 := push_ok_balanced hpush hb
                          have hb2 : stacksBalanced t6.2.2.2.2.2 :=
                            balanced_of_stacks_eq hctx2.1 hctx2.2 hb1
                          have hb4 : stacksBalanced ctx4 :=
                            balanced_of_stacks_eq hback.1 hback.2 hb
                          have hc' : c = ctx1 ∨ c ∈ tra4 ∨ c ∈ tra6 ∨ c = ctx4 ∨ c ∈ trb7 := by
                            simpa using hc
                          rcases hc' with rfl | hc' | hc' | rfl | hc'
                          · exact hb1
                          · exact Pbal hb1 c hc'
                          · exact Ebal hb2 c hc'
                          · exact hb4
                          · exact Rbal hb4 c hc'
                        · obtain ⟨Rbal, Rres⟩ := walkOperations_spec proc rest _ _ _ _ _ _ hx8
                          obtain ⟨rfl, rfl⟩ := pureW_eq h8
                          constructor
                          · intro hb c hc
                            have hb1 := push_ok_balanced hpush hb
                            have hb2 : stacksBalanced t6.2.2.2.2.2 :=
                              balanced_of_stacks_eq hctx2.1 hctx2.2 hb1
                            have hb4 : stacksBalanced ctx4 :=
                              balanced_of_stacks_eq hback.1 hback.2 hb
                            have hc' : c = ctx1 ∨ c ∈ tra4 ∨ c ∈ tra6 ∨ c = ctx4 ∨
                                c ∈ tra8 := by simpa using hc
                            rcases hc' with rfl | hc' | hc' | rfl | hc'
                            · exact hb1
                            · exact Pbal hb1 c hc'
                            · exact Ebal hb2 c hc'
                            · exact hb4
                            · exact Rbal hb4 c hc'
                          · intro out hout
                            obtain rfl := (Except.ok.inj hout).symm
                            obtain ⟨hr1, hr2⟩ := Rres t8 rfl
                            exact ⟨hr1.trans hback.1, hr2.trans hback.2⟩

/-- `push_str` conses one entry onto each stack. -/
theorem push_str_stacks (ctx : ParsingContext) (t : String) (node id : PyVal) :
    (ctx.push_str t node id).type_stack = t :: ctx.type_stack ∧
    (ctx.push_str t node id).id_stack = id :: ctx.id_stack :=
  ⟨rfl, rfl⟩

/-- `push_str` preserves stack balance. -/
theorem push_str_balanced {ctx : ParsingContext} (t : String) (node id : PyVal)
    (hb : stacksBalanced ctx) : stacksBalanced (ctx.push_str t node id) := by
  unfold stacksBalanced ParsingContext.push_str at *
  simp [hb]

/-- Balance and restoration for the api-entry loop. -/
theorem walkApis_spec (proc : SwaggerProcessor) :
    ∀ (apis : List PyVal) (resources resource : PyVal) (ctx : ParsingContext)
      (res : Except PyErr (PyVal × PyVal × List PyVal × ParsingContext))
      (tr : List ParsingContext),
      walkApis proc resources resource apis ctx = (res, tr) →
      (stacksBalanced ctx → ∀ c ∈ tr, stacksBalanced c) ∧
      (∀ out, res = .ok out →
        out.2.2.2.type_stack = ctx.type_stack ∧ out.2.2.2.id_stack = ctx.id_stack)
  | [], resources, resource, ctx, res, tr, h => by
      unfold walkApis at h
      obtain ⟨rfl, rfl⟩ := pureW_eq h
      refine ⟨fun _ c hc => absurd hc (List.not_mem_nil c), fun out hout => ?_⟩
      obtain rfl := Except.ok.inj hout
      exact ⟨rfl, rfl⟩
  | api :: rest, resources, resource, ctx, res, tr, h0 => by
      unfold walkApis at h0
      simp only [walkM_bind_def] at h0
      rcases bindW_eq h0 with ⟨e, hx, rfl⟩ | ⟨ctx1, tra, trb, hx, h1, rfl⟩
      · rcases pushW_eq hx with ⟨e', hpush, -, rfl⟩ | ⟨c1, -, heqp, -⟩
        · exact ⟨fun _ c hc => absurd hc (List.not_mem_nil c), fun out hout => by cases hout⟩
        · cases heqp
      · rcases pushW_eq hx with ⟨e', -, heqp, -⟩ | ⟨c1, hpush, heqp, rfl⟩
        · cases heqp
        · obtain rfl := Except.ok.inj heqp
          rcases bindW_eq h1 with ⟨e, hx2, rfl⟩ | ⟨t3, tra2, trb2, hx2, h2, rfl⟩
          · obtain ⟨-, rfl⟩ := liftW_eq hx2
            refine ⟨fun hb c hc => ?_, fun out hout => by cases hout⟩
            have hc' : c = ctx1 := by simpa using hc
            subst hc'
            exact push_ok_balanced hpush hb
          · obtain ⟨-, rfl⟩ := liftW_eq hx2
            rcases bindW_eq h2 with ⟨e, hx3, rfl⟩ | ⟨ops, tra3, trb3, hx3, h3, rfl⟩
            · obtain ⟨-, rfl⟩ := liftW_eq hx3
              refine ⟨fun hb c hc => ?_, fun out hout => by cases hout⟩
              have hc' : c = ctx1 := by simpa using hc
              subst hc'
              exact push_ok_balanced hpush hb
            · obtain ⟨-, rfl⟩ := liftW_eq hx3
              rcases bindW_eq h3 with ⟨e, hx4, rfl⟩ | ⟨t5, tra4, trb4, hx4, h4, rfl⟩
              · obtain ⟨Obal, -⟩ := walkOperations_spec proc _ _ _ _ _ _ _ hx4
                refine ⟨fun hb c hc => ?_, fun out hout => by cases hout⟩
                have hb1 := push_ok_balanced hpush hb
                have hc' : c = ctx1 ∨ c ∈ trb3 := by simpa using hc
                rcases hc' with rfl | hc'
                · exact hb1
                · exact Obal hb1 c hc'
              · obtain ⟨Obal, Ores⟩ := walkOperations_spec proc _ _ _ _ _ _ _ hx4
                have hctx2 := Ores t5 rfl
                rcases bindW_eq h4 with ⟨e, hx5, rfl⟩ | ⟨ctx3, tra5, trb5, hx5, h5, rfl⟩
                · rcases popW_eq hx5 with ⟨e', hpop, -, rfl⟩ | ⟨c3, -, heqq, -⟩
                  · refine ⟨fun hb c hc => ?_, fun out hout => by cases hout⟩
                    have hb1 := push_ok_balanced hpush hb
                    have hc' : c = ctx1 ∨ c ∈ tra4 := by simpa using hc
                    rcases hc' with rfl | hc'
                    · exact hb1
                    · exact Obal hb1 c hc'
                  · cases heqq
                · rcases popW_eq hx5 with ⟨e', -, heqq, -⟩ | ⟨c3, hpop, heqq, rfl⟩
                  · cases heqq
                  · obtain rfl := Except.ok.inj heqq
                    have hback : ctx3.type_stack = ctx.type_stack ∧
                        ctx3.id_stack = ctx.id_stack := by
                      obtain ⟨hts, i, his⟩ := push_ok_stacks hpush
                      obtain ⟨t', ts, i', ids, ha, hb', hc'', hd⟩ := pop_ok_stacks hpop
                      rw [hctx2.1, hts] at ha
                      rw [hctx2.2, his] at hb'
                      obtain ⟨-, ha2⟩ := List.cons.inj ha
                      obtain ⟨-, hb2⟩ := List.cons.inj hb'
                      rw [hc'', hd, ← ha2, ← hb2]
                      exact ⟨rfl, rfl⟩
                    rcases bindW_eq h5 with ⟨e, hx6, rfl⟩ | ⟨t4, tra6, trb6, hx6, h6, rfl⟩
                    · obtain ⟨Rbal, -⟩ := walkApis_spec proc rest _ _ _ _ _ hx6
                      refine ⟨fun hb c hc => ?_, fun out hout => by cases hout⟩
                      have hb1 := push_ok_balanced hpush hb
                      have hb3 : stacksBalanced ctx3 :=
                        balanced_of_stacks_eq hback.1 hback.2 hb
                      have hc' : c = ctx1 ∨ c ∈ tra4 ∨ c = ctx3 ∨ c ∈ trb5 := by
                        simpa using hc
                      rcases hc' with rfl | hc' | rfl | hc'
                      · exact hb1
                      · exact Obal hb1 c hc'
                      · exact hb3
                      · exact Rbal hb3 c hc'
                    · obtain ⟨Rbal, Rres⟩ := walkApis_spec proc rest _ _ _ _ _ hx6
                      obtain ⟨rfl, rfl⟩ := pureW_eq h6
                      constructor
                      · intro hb c hc
                        have hb1 := push_ok_balanced hpush hb
                        have hb3 : stacksBalanced ctx3 :=
                          balanced_of_stacks_eq hback.1 hback.2 hb
                        have hc' : c = ctx1 ∨ c ∈ tra4 ∨ c = ctx3 ∨ c ∈ tra6 := by
                          simpa using hc
                        rcases hc' with rfl | hc' | rfl | hc'
                        · exact hb1
                        · exact Obal hb1 c hc'
                        · exact hb3
                        · exact Rbal hb3 c hc'
                      · intro out hout
                        obtain rfl := (Except.ok.inj hout).symm
                        obtain ⟨hr1, hr2⟩ := Rres t4 rfl
                        exact ⟨hr1.trans hback.1, hr2.trans hback.2⟩

/-- Balance and restoration for the model loop. -/
theorem walkModels_spec (proc : SwaggerProcessor) :
    ∀ (ms : PyDict) (resources resource : PyVal) (ctx : ParsingContext)
      (res : Except PyErr (PyVal × PyVal × PyDict × ParsingContext))
      (tr : List ParsingContext),
      walkModels proc resources resource ms ctx = (res, tr) →
      (stacksBalanced ctx → ∀ c ∈ tr, stacksBalanced c) ∧
      (∀ out, res = .ok out →
        out.2.2.2.type_stack = ctx.type_stack ∧ out.2.2.2.id_stack = ctx.id_stack)
  | [], resources, resource, ctx, res, tr, h => by
      unfold walkModels at h
      obtain ⟨rfl, rfl⟩ := pureW_eq h
      refine ⟨fun _ c hc => absurd hc (List.not_mem_nil c), fun out hout => ?_⟩
      obtain rfl := Except.ok.inj hout
      exact ⟨rfl, rfl⟩
  | (name, model) :: rest, resources, resource, ctx, res, tr, h0 => by
      unfold walkModels at h0
      simp only [walkM_bind_def] at h0
      rcases bindW_eq h0 with ⟨e, hx, rfl⟩ | ⟨ctx1, tra, trb, hx, h1, rfl⟩
      · rcases pushW_eq hx with ⟨e', hpush, -, rfl⟩ | ⟨c1, -, heqp, -⟩
        · exact ⟨fun _ c hc => absurd hc (List.not_mem_nil c), fun out hout => by cases hout⟩
        · cases heqp
      · rcases pushW_eq hx with ⟨e', -, heqp, -⟩ | ⟨c1, hpush, heqp, rfl⟩
        · cases heqp
        · obtain rfl := Except.ok.inj heqp
          rcases bindW_eq h1 with ⟨e, hx2, rfl⟩ | ⟨t3, tra2, trb2, hx2, h2, rfl⟩
          · obtain ⟨-, rfl⟩ := liftW_eq hx2
            refine ⟨fun hb c hc => ?_, fun out hout => by cases hout⟩
            have hc' : c = ctx1 := by simpa using hc
            subst hc'
            exact push_ok_balanced hpush hb
          · obtain ⟨-, rfl⟩ := liftW_eq hx2
            rcases bindW_eq h2 with ⟨e, hx3, rfl⟩ | ⟨props, tra3, trb3, hx3, h3, rfl⟩
            · obtain ⟨-, rfl⟩ := liftW_eq hx3
              refine ⟨fun hb c hc => ?_, fun out hout => by cases hout⟩
              have hc' : c = ctx1 := by simpa using hc
              subst hc'
              exact push_ok_balanced hpush hb
            · obtain ⟨-, rfl⟩ := liftW_eq hx3
              rcases bindW_eq h3 with ⟨e, hx4, rfl⟩ | ⟨t5, tra4, trb4, hx4, h4, rfl⟩
              · obtain ⟨Wbal, -⟩ := walkProps_spec proc _ _ _ _ _ _ _ hx4
                refine ⟨fun hb c hc => ?_, fun out hout => by cases hout⟩
                have hb1 := push_ok_balanced hpush hb
                have hc' : c = ctx1 ∨ c ∈ trb3 := by simpa using hc
                rcases hc' with rfl | hc'
                · exact hb1
                · exact Wbal hb1 c hc'
              · obtain ⟨Wbal, Wres⟩ := walkProps_spec proc _ _ _ _ _ _ _ hx4
                have hctx2 := Wres t5 rfl
                rcases bindW_eq h4 with ⟨e, hx5, rfl⟩ | ⟨ctx3, tra5, trb5, hx5, h5, rfl⟩
                · rcases popW_eq hx5 with ⟨e', hpop, -, rfl⟩ | ⟨c3, -, heqq, -⟩
                  · refine ⟨fun hb c hc => ?_, fun out hout => by cases hout⟩
                    have hb1 := push_ok_balanced hpush hb
                    have hc' : c = ctx1 ∨ c ∈ tra4 := by simpa using hc
                    rcases hc' with rfl | hc'
                    · exact hb1
                    · exact Wbal hb1 c hc'
                  · cases heqq
                · rcases popW_eq hx5 with ⟨e', -, heqq, -⟩ | ⟨c3, hpop, heqq, rfl⟩
                  · cases heqq
                  · obtain rfl := Except.ok.inj heqq
                    have hback : ctx3.type_stack = ctx.type_stack ∧
                        ctx3.id_stack = ctx.id_stack := by
                      obtain ⟨hts, i, his⟩ := push_ok_stacks hpush
                      obtain ⟨t', ts, i', ids, ha, hb', hc'', hd⟩ := pop_ok_stacks hpop
                      rw [hctx2.1, hts] at ha
                      rw [hctx2.2, his] at hb'
                      obtain ⟨-, ha2⟩ := List.cons.inj ha
                      obtain ⟨-, hb2⟩ := List.cons.inj hb'
                      rw [hc'', hd, ← ha2, ← hb2]
                      exact ⟨rfl, rfl⟩
                    rcases bindW_eq h5 with ⟨e, hx6, rfl⟩ | ⟨t4, tra6, trb6, hx6, h6, rfl⟩
                    · obtain ⟨Rbal, -⟩ := walkModels_spec proc rest _ _ _ _ _ hx6
                      refine ⟨fun hb c hc => ?_, fun out hout => by cases hout⟩
                      have hb1 := push_ok_balanced hpush hb
                      have hb3 : stacksBalanced ctx3 :=
                        balanced_of_stacks_eq hback.1 hback.2 hb
                      have hc' : c = ctx1 ∨ c ∈ tra4 ∨ c = ctx3 ∨ c ∈ trb5 := by
                        simpa using hc
                      rcases hc' with rfl | hc' | rfl | hc'
                      · exact hb1
                      · exact Wbal hb1 c hc'
                      · exact hb3
                      · exact Rbal hb3 c hc'
                    · obtain ⟨Rbal, Rres⟩ := walkModels_spec proc rest _ _ _ _ _ hx6
                      obtain ⟨rfl, rfl⟩ := pureW_eq h6
                      constructor
                      · intro hb c hc
                        have hb1 := push_ok_balanced hpush hb
                        have hb3 : stacksBalanced ctx3 :=
                          balanced_of_stacks_eq hback.1 hback.2 hb
                        have hc' : c = ctx1 ∨ c ∈ tra4 ∨ c = ctx3 ∨ c ∈ tra6 := by
                          simpa using hc
                        rcases hc' with rfl | hc' | rfl | hc'
                        · exact hb1
                        · exact Wbal hb1 c hc'
                        · exact hb3
                        · exact Rbal hb3 c hc'
                      · intro out hout
                        obtain rfl := (Except.ok.inj hout).symm
                        obtain ⟨hr1, hr2⟩ := Rres t4 rfl
                        exact ⟨hr1.trans hback.1, hr2.trans hback.2⟩

/-- Balance and restoration for the listing-api loop. -/
theorem walkListingApis_spec (proc : SwaggerProcessor) :
    ∀ (las : List PyVal) (resources : PyVal) (ctx : ParsingContext)
      (res : Except PyErr (PyVal × List PyVal × ParsingContext))
      (tr : List ParsingContext),
      walkListingApis proc resources las ctx = (res, tr) →
      (stacksBalanced ctx → ∀ c ∈ tr, stacksBalanced c) ∧
      (∀ out, res = .ok out →
        out.2.2.type_stack = ctx.type_stack ∧ out.2.2.id_stack = ctx.id_stack)
  | [], resources, ctx, res, tr, h => by
      unfold walkListingApis at h
      obtain ⟨rfl, rfl⟩ := pureW_eq h
      refine ⟨fun _ c hc => absurd hc (List.not_mem_nil c), fun out hout => ?_⟩
      obtain rfl := Except.ok.inj hout
      exact ⟨rfl, rfl⟩
  | la :: rest, resources, ctx, res, tr, h0 => by
      unfold walkListingApis at h0
      simp only [walkM_bind_def] at h0
      rcases bindW_eq h0 with ⟨e, hx, rfl⟩ | ⟨ctx1, tra, trb, hx, h1, rfl⟩
      · rcases pushW_eq hx with ⟨e', hpush, -, rfl⟩ | ⟨c1, -, heqp, -⟩
        · exact ⟨fun _ c hc => absurd hc (List.not_mem_nil c), fun out hout => by cases hout⟩
        · cases heqp
      · rcases pushW_eq hx with ⟨e', -, heqp, -⟩ | ⟨c1, hpush, heqp, rfl⟩
        · cases heqp
        · obtain rfl := Except.ok.inj heqp
          rcases bindW_eq h1 with ⟨e, hx2, rfl⟩ | ⟨t2, tra2, trb2, hx2, h2, rfl⟩
          · obtain ⟨-, rfl⟩ := liftW_eq hx2
            refine ⟨fun hb c hc => ?_, fun out hout => by cases hout⟩
            have hc' : c = ctx1 := by simpa using hc
            subst hc'
            exact push_ok_balanced hpush hb
          · obtain ⟨-, rfl⟩ := liftW_eq hx2
            rcases bindW_eq h2 with ⟨e, hx3, rfl⟩ | ⟨ctx2, tra3, trb3, hx3, h3, rfl⟩
            · rcases popW_eq hx3 with ⟨e', hpop, -, rfl⟩ | ⟨c2, -, heqq, -⟩
              · refine ⟨fun hb c hc => ?_, fun out hout => by cases hout⟩
                have hc' : c = ctx1 := by simpa using hc
                subst hc'
                exact push_ok_balanced hpush hb
              · cases heqq
            · rcases popW_eq hx3 with ⟨e', -, heqq, -⟩ | ⟨c2, hpop, heqq, rfl⟩
              · cases heqq
              · obtain rfl := Except.ok.inj heqq
                have hctx2 : ctx2.type_stack = ctx.type_stack ∧
                    ctx2.id_stack = ctx.id_stack := pop_after_push_stacks hpush hpop
                rcases bindW_eq h3 with ⟨e, hx4, rfl⟩ | ⟨api_url, tra4, trb4, hx4, h4, rfl⟩
                · obtain ⟨-, rfl⟩ := liftW_eq hx4
                  refine ⟨fun hb c hc => ?_, fun out hout => by cases hout⟩
                  have hc' : c = ctx1 ∨ c = ctx2 := by simpa using hc
                  rcases hc' with rfl | rfl
                  · exact push_ok_balanced hpush hb
                  · exact balanced_of_stacks_eq hctx2.1 hctx2.2 hb
                · obtain ⟨-, rfl⟩ := liftW_eq hx4
                  rcases bindW_eq h4 with ⟨e, hx5, rfl⟩ | ⟨decl, tra5, trb5, hx5, h5, rfl⟩
                  · obtain ⟨-, rfl⟩ := liftW_eq hx5
                    refine ⟨fun hb c hc => ?_, fun out hout => by cases hout⟩
                    have hc' : c = ctx1 ∨ c = ctx2 := by simpa using hc
                    rcases hc' with rfl | rfl
                    · exact push_ok_balanced hpush hb
                    · exact balanced_of_stacks_eq hctx2.1 hctx2.2 hb
                  · obtain ⟨-, rfl⟩ := liftW_eq hx5
                    rcases bindW_eq h5 with ⟨e, hx6, rfl⟩ | ⟨ctx3, tra6, trb6, hx6, h6, rfl⟩
                    · obtain ⟨heq3, -⟩ := pushStrW_eq hx6
                      cases heq3
                    · obtain ⟨heq3, rfl⟩ := pushStrW_eq hx6
                      obtain rfl := Except.ok.inj heq3
                      have hctx3ty : (ctx2.push_str "resource" decl api_url).type_stack =
                          "resource" :: ctx2.type_stack := rfl
                      have hctx3id : ∃ i, (ctx2.push_str "resource" decl api_url).id_stack =
                          i :: ctx2.id_stack := ⟨_, rfl⟩
                      have hb3of : stacksBalanced ctx →
                          stacksBalanced (ctx2.push_str "resource" decl api_url) := fun hb =>
                        push_str_balanced _ _ _ (balanced_of_stacks_eq hctx2.1 hctx2.2 hb)
                      rcases bindW_eq h6 with ⟨e, hx7, rfl⟩ | ⟨t2d, tra7, trb7, hx7, h7, rfl⟩
                      · obtain ⟨-, rfl⟩ := liftW_eq hx7
                        refine ⟨fun hb c hc => ?_, fun out hout => by cases hout⟩
                        have hc' : c = ctx1 ∨ c = ctx2 ∨ c = ctx2.push_str "resource" decl api_url := by simpa using hc
                        rcases hc' with rfl | rfl | rfl
                        · exact push_ok_balanced hpush hb
                        · exact balanced_of_stacks_eq hctx2.1 hctx2.2 hb
                        · exact hb3of hb
                      · obtain ⟨-, rfl⟩ := liftW_eq hx7
                        rcases bindW_eq h7 with ⟨e, hx8, rfl⟩ | ⟨apis, tra8, trb8, hx8, h8, rfl⟩
                        · obtain ⟨-, rfl⟩ := liftW_eq hx8
                          refine ⟨fun hb c hc => ?_, fun out hout => by cases hout⟩
                          have hc' : c = ctx1 ∨ c = ctx2 ∨ c = ctx2.push_str "resource" decl api_url := by simpa using hc
                          rcases hc' with rfl | rfl | rfl
                          · exact push_ok_balanced hpush hb
                          · exact balanced_of_stacks_eq hctx2.1 hctx2.2 hb
                          · exact hb3of hb
                        · obtain ⟨-, rfl⟩ := liftW_eq hx8
                          rcases bindW_eq h8 with ⟨e, hx9, rfl⟩ | ⟨t4a, tra9, trb9, hx9, h9, rfl⟩
                          · obtain ⟨Abal, -⟩ := walkApis_spec proc _ _ _ _ _ _ hx9
                            refine ⟨fun hb c hc => ?_, fun out hout => by cases hout⟩
                            have hc' : c = ctx1 ∨ c = ctx2 ∨ c = ctx2.push_str "resource" decl api_url ∨ c ∈ trb8 := by
                              simpa using hc
                            rcases hc' with rfl | rfl | rfl | hc'
                            · exact push_ok_balanced hpush hb
                            · exact balanced_of_stacks_eq hctx2.1 hctx2.2 hb
                            · exact hb3of hb
                            · exact Abal (hb3of hb) c hc'
                          · obtain ⟨Abal, Ares⟩ := walkApis_spec proc _ _ _ _ _ _ hx9
                            have hctx4 := Ares t4a rfl
                            rcases bindW_eq h9 with ⟨e, hx10, rfl⟩ | ⟨ms, tra10, trb10, hx10, h10, rfl⟩
                            · obtain ⟨-, rfl⟩ := liftW_eq hx10
                              refine ⟨fun hb c hc => ?_, fun out hout => by cases hout⟩
                              have hc' : c = ctx1 ∨ c = ctx2 ∨ c = ctx2.push_str "resource" decl api_url ∨ c ∈ tra9 := by
                                simpa using hc
                              rcases hc' with rfl | rfl | rfl | hc'
                              · exact push_ok_balanced hpush hb
                              · exact balanced_of_stacks_eq hctx2.1 hctx2.2 hb
                              · exact hb3of hb
                              · exact Abal (hb3of hb) c hc'
                            · obtain ⟨-, rfl⟩ := liftW_eq hx10
                              rcases bindW_eq h10 with ⟨e, hx11, rfl⟩ | ⟨t4b, tra11, trb11, hx11, h11, rfl⟩
                              · obtain ⟨Mbal, -⟩ := walkModels_spec proc _ _ _ _ _ _ hx11
                                refine ⟨fun hb c hc => ?_, fun out hout => by cases hout⟩
                                have hc' : c = ctx1 ∨ c = ctx2 ∨ c = ctx2.push_str "resource" decl api_url ∨ c ∈ tra9 ∨
                                    c ∈ trb10 := by simpa using hc
                                rcases hc' with rfl | rfl | rfl | hc' | hc'
                                · exact push_ok_balanced hpush hb
                                · exact balanced_of_stacks_eq hctx2.1 hctx2.2 hb
                                · exact hb3of hb
                                · exact Abal (hb3of hb) c hc'
                                · exact Mbal (balanced_of_stacks_eq hctx4.1 hctx4.2
                                    (hb3of hb)) c hc'
                              · obtain ⟨Mbal, Mres⟩ := walkModels_spec proc _ _ _ _ _ _ hx11
                                have hctx5 := Mres t4b rfl
                                rcases bindW_eq h11 with ⟨e, hx12, rfl⟩ | ⟨ctx6, tra12, trb12, hx12, h12, rfl⟩
                                · rcases popW_eq hx12 with ⟨e', hpop2, -, rfl⟩ | ⟨c6, -, heqr, -⟩
                                  · refine ⟨fun hb c hc => ?_, fun out hout => by cases hout⟩
                                    have hc' : c = ctx1 ∨ c = ctx2 ∨ c = ctx2.push_str "resource" decl api_url ∨ c ∈ tra9 ∨
                                        c ∈ tra11 := by simpa using hc
                                    rcases hc' with rfl | rfl | rfl | hc' | hc'
                                    · exact push_ok_balanced hpush hb
                                    · exact balanced_of_stacks_eq hctx2.1 hctx2.2 hb
                                    · exact hb3of hb
                                    · exact Abal (hb3of hb) c hc'
                                    · exact Mbal (balanced_of_stacks_eq hctx4.1 hctx4.2
                                        (hb3of hb)) c hc'
                                  · cases heqr
                                · rcases popW_eq hx12 with ⟨e', -, heqr, -⟩ | ⟨c6, hpop2, heqr, rfl⟩
                                  · cases heqr
                                  · obtain rfl := Except.ok.inj heqr
                                    have hback : ctx6.type_stack = ctx.type_stack ∧
                                        ctx6.id_stack = ctx.id_stack := by
                                      obtain ⟨t', ts, i', ids, ha, hb', hc'', hd⟩ :=
                                        pop_ok_stacks hpop2
                                      rw [hctx5.1, hctx4.1, hctx3ty] at ha
                                      obtain ⟨i3, hi3⟩ := hctx3id
                                      rw [hctx5.2, hctx4.2, hi3] at hb'
                                      obtain ⟨-, ha2⟩ := List.cons.inj ha
                                      obtain ⟨-, hb2⟩ := List.cons.inj hb'
                                      rw [hc'', hd, ← ha2, ← hb2]
                                      exact ⟨hctx2.1, hctx2.2⟩
                                    rcases bindW_eq h12 with ⟨e, hx13, rfl⟩ | ⟨t3r, tra13, trb13, hx13, h13, rfl⟩
                                    · obtain ⟨Rbal, -⟩ := walkListingApis_spec proc rest _ _ _ _ hx13
                                      refine ⟨fun hb c hc => ?_, fun out hout => by cases hout⟩
                                      have hb6 : stacksBalanced ctx6 :=
                                        balanced_of_stacks_eq hback.1 hback.2 hb
                                      have hc' : c = ctx1 ∨ c = ctx2 ∨ c = ctx2.push_str "resource" decl api_url ∨ c ∈ tra9 ∨
                                          c ∈ tra11 ∨ c = ctx6 ∨ c ∈ trb12 := by simpa using hc
                                      rcases hc' with rfl | rfl | rfl | hc' | hc' | rfl | hc'
                                      · exact push_ok_balanced hpush hb
                                      · exact balanced_of_stacks_eq hctx2.1 hctx2.2 hb
                                      · exact hb3of hb
                                      · exact Abal (hb3of hb) c hc'
                                      · exact Mbal (balanced_of_stacks_eq hctx4.1 hctx4.2
                                          (hb3of hb)) c hc'
                                      · exact hb6
                                      · exact Rbal hb6 c hc'
                                    · obtain ⟨Rbal, Rres⟩ := walkListingApis_spec proc rest _ _ _ _ hx13
                                      obtain ⟨rfl, rfl⟩ := pureW_eq h13
                                      constructor
                                      · intro hb c hc
                                        have hb6 : stacksBalanced ctx6 :=
                                          balanced_of_stacks_eq hback.1 hback.2 hb
                                        have hc' : c = ctx1 ∨ c = ctx2 ∨ c = ctx2.push_str "resource" decl api_url ∨ c ∈ tra9 ∨
                                            c ∈ tra11 ∨ c = ctx6 ∨ c ∈ tra13 := by simpa using hc
                                        rcases hc' with rfl | rfl | rfl | hc' | hc' | rfl | hc'
                                        · exact push_ok_balanced hpush hb
                                        · exact balanced_of_stacks_eq hctx2.1 hctx2.2 hb
                                        · exact hb3of hb
                                        · exact Abal (hb3of hb) c hc'
                                        · exact Mbal (balanced_of_stacks_eq hctx4.1 hctx4.2
                                            (hb3of hb)) c hc'
                                        · exact hb6
                                        · exact Rbal hb6 c hc'
                                      · intro out hout
                                        obtain rfl := (Except.ok.inj hout).symm
                                        obtain ⟨hr1, hr2⟩ := Rres t3r rfl
                                        exact ⟨hr1.trans hback.1, hr2.trans hback.2⟩

/-! ### Keyword-argument bookkeeping lemmas -/

/-- `isNone` is `true` exactly on `None`. -/
theorem isNone_iff {v : PyVal} : v.isNone = true ↔ v = .none := by
  cases v <;> simp [PyVal.isNone]

/-- An absent (or explicitly-`None`) argument normalizes to `None`. -/
theorem normalizeArg_of_none {kw : Kwargs} {n : String} (h : kwGet kw n = .none) :
    normalizeArg kw n = .ok .none := by
  unfold normalizeArg
  rw [h]

/-- An argument normalizes to `None` exactly when `kwargs.get` yields `None`
(a list value always normalizes to a string or raises). -/
theorem normalizeArg_ok_none_iff {kw : Kwargs} {n : String} :
    normalizeArg kw n = .ok PyVal.none ↔ kwGet kw n = PyVal.none := by
  unfold normalizeArg
  cases h : kwGet kw n <;> simp
  case list xs => cases joinComma xs <;> simp

/-- With distinct keys, a stored entry is what `kwargs.get` returns. -/
theorem kwGet_eq_of_mem {kw : Kwargs} {k : String} {w : PyVal}
    (hnd : (kw.map Prod.fst).Nodup) (hmem : (k, w) ∈ kw) : kwGet kw k = w := by
  induction kw with
  | nil => cases hmem
  | cons kv rest ih =>
    obtain ⟨k', v⟩ := kv
    rw [List.map_cons] at hnd
    obtain ⟨hnotin, hnd'⟩ := List.nodup_cons.mp hnd
    cases hmem with
    | head => simp [kwGet]
    | tail _ hmem =>
      have hk : ¬(k' = k) := by
        intro he
        exact hnotin (he ▸ List.mem_map.mpr ⟨(k, w), hmem, rfl⟩)
      simp [kwGet, hk, ih hnd' hmem]

/-- Deleting one key leaves lookups of other keys unchanged. -/
theorem kwGet_kwDel_ne {kw : Kwargs} {m n : String} (h : ¬(m = n)) :
    kwGet (kwDel kw n) m = kwGet kw m := by
  induction kw with
  | nil => rfl
  | cons kv rest ih =>
    obtain ⟨k', v⟩ := kv
    by_cases hk : k' = n
    · have hmne : ¬(k' = m) := fun he => h ((he ▸ hk : m = n))
      have step : kwDel ((k', v) :: rest) n = kwDel rest n := by
        simp [kwDel, List.filter_cons, hk]
      rw [step, ih]
      simp [kwGet, hmne]
    · have step : kwDel ((k', v) :: rest) n = (k', v) :: kwDel rest n := by
        simp [kwDel, List.filter_cons, hk]
      rw [step]
      by_cases hm : k' = m
      · simp [kwGet, hm]
      · simp [kwGet, hm, ih]

/-- Deleting a key removes it. -/
theorem kwGet_kwDel_self {kw : Kwargs} {n : String} :
    kwGet (kwDel kw n) n = .none := by
  induction kw with
  | nil => rfl
  | cons kv rest ih =>
    obtain ⟨k', v⟩ := kv
    by_cases hk : k' = n
    · have step : kwDel ((k', v) :: rest) n = kwDel rest n := by
        simp [kwDel, List.filter_cons, hk]
      rw [step]
      exact ih
    · have step : kwDel ((k', v) :: rest) n = (k', v) :: kwDel rest n := by
        simp [kwDel, List.filter_cons, hk]
      rw [step]
      simp [kwGet, hk, ih]

/-- Normalization only looks the name up, so deleting another key does not
change it. -/
theorem normalizeArg_kwDel_ne {kw : Kwargs} {m n : String} (h : ¬(m = n)) :
    normalizeArg (kwDel kw n) m = normalizeArg kw m := by
  unfold normalizeArg
  rw [kwGet_kwDel_ne h]

/-- Deletion preserves distinctness of the keys. -/
theorem nodup_kwDel {kw : Kwargs} {n : String}
    (hnd : (kw.map Prod.fst).Nodup) : ((kwDel kw n).map Prod.fst).Nodup :=
  hnd.sublist ((List.filter_sublist kw).map Prod.fst)

/-- A parameter whose argument is absent (`kwargs.get` yields `None`) either
raises the missing-required error or leaves the whole working state
untouched. -/
theorem bindOne_absent {nick uri : String} {params : PyDict} {data : Option PyDict}
    {kw : Kwargs} {p : Param} (h : kwGet kw p.name = .none) :
    bindOne nick uri params data kw p =
      if p.required then .error (.typeError (missingParamMsg p.name nick))
      else .ok (uri, params, data, kw) := by
  unfold bindOne
  rw [normalizeArg_of_none h]
  rfl

/-- A parameter whose argument is present is, when binding succeeds, consumed
from the working argument set. -/
theorem bindOne_consumed {nick uri : String} {params : PyDict} {data : Option PyDict}
    {kw : Kwargs} {p : Param} {u1 : String} {pr1 : PyDict} {d1 : Option PyDict}
    {kw1 : Kwargs} (hv : ¬(kwGet kw p.name = .none))
    (h : bindOne nick uri params data kw p = .ok (u1, pr1, d1, kw1)) :
    kw1 = kwDel kw p.name := by
  unfold bindOne at h
  split at h
  · cases h
  · rename_i value heq
    have hvn : value.isNone = false := by
      cases hval : value with
      | none => rw [hval] at heq; exact absurd (normalizeArg_ok_none_iff.mp heq) hv
      | bool b => rfl
      | int n => rfl
      | str s => rfl
      | list xs => rfl
      | dict entries => rfl
    simp only [hvn, Bool.false_eq_true, if_false] at h
    by_cases hpath : p.paramType = "path"
    · rw [if_pos hpath] at h
      simp only [Except.ok.injEq, Prod.mk.injEq] at h
      exact h.2.2.2.symm
    · rw [if_neg hpath] at h
      by_cases hquery : p.paramType = "query"
      · rw [if_pos hquery] at h
        simp only [Except.ok.injEq, Prod.mk.injEq] at h
        exact h.2.2.2.symm
      · rw [if_neg hquery] at h
        by_cases hbody : p.paramType = "body"
        · rw [if_pos hbody] at h
          cases value with
          | dict d2 =>
            simp only [Except.ok.injEq, Prod.mk.injEq] at h
            exact h.2.2.2.symm
          | none => cases h
          | bool b => cases h
          | int n => cases h
          | str s2 => cases h
          | list xs => cases h
        · rw [if_neg hbody] at h
          cases h

/-- Binding one parameter never turns an absent argument into a present one. -/
theorem bindOne_none_monotone {nick uri : String} {params : PyDict}
    {data : Option PyDict} {kw : Kwargs} {p : Param} {u1 : String} {pr1 : PyDict}
    {d1 : Option PyDict} {kw1 : Kwargs} {n : String}
    (h : bindOne nick uri params data kw p = .ok (u1, pr1, d1, kw1))
    (hn : kwGet kw n = .none) : kwGet kw1 n = .none := by
  by_cases hp : kwGet kw p.name = .none
  · rw [bindOne_absent hp] at h
    by_cases hr : p.required
    · rw [if_pos hr] at h; cases h
    · rw [if_neg hr] at h
      simp only [Except.ok.injEq, Prod.mk.injEq] at h
      obtain ⟨-, -, -, rfl⟩ := h
      exact hn
  · have := bindOne_consumed hp h
    subst this
    by_cases hnp : n = p.name
    · subst hnp; exact kwGet_kwDel_self
    · rw [kwGet_kwDel_ne hnp]; exact hn

/-- On success, the leftover argument set is exactly the input minus every
argument that matched a declared parameter with a non-`None` value. -/
theorem bindParams_ok_leftover (nick : String) :
    ∀ (ps : List Param) (uri : String) (params : PyDict) (data : Option PyDict)
      (kw : Kwargs) (u : String) (pr : PyDict) (d : Option PyDict) (kw' : Kwargs),
      (kw.map Prod.fst).Nodup →
      bindParams nick ps uri params data kw = .ok (u, pr, d, kw') →
      kw' = kw.filter (fun kv => !(ps.any (fun q => q.name = kv.1) && !kv.2.isNone))
  | [], uri, params, data, kw, u, pr, d, kw', _, h => by
      unfold bindParams at h
      simp only [Except.ok.injEq, Prod.mk.injEq] at h
      obtain ⟨-, -, -, rfl⟩ := h
      simp
  | p :: rest, uri, params, data, kw, u, pr, d, kw', hnd, h => by
      unfold bindParams at h
      cases hb : bindOne nick uri params data kw p with
      | error e => rw [hb] at h; cases h
      | ok q =>
        rw [hb] at h
        obtain ⟨u1, pr1, d1, kw1⟩ := q
        by_cases hn : kwGet kw p.name = .none
        · rw [bindOne_absent hn] at hb
          by_cases hr : p.required
          · rw [if_pos hr] at hb; cases hb
          · rw [if_neg hr] at hb
            simp only [Except.ok.injEq, Prod.mk.injEq] at hb
            obtain ⟨rfl, rfl, rfl, rfl⟩ := hb
            rw [bindParams_ok_leftover nick rest uri params data kw u pr d kw' hnd h]
            refine List.filter_congr ?_
            intro kv hkv
            by_cases hpk : p.name = kv.1
            · have hv : kv.2 = .none := by
                have hm : (p.name, kv.2) ∈ kw := by
                  rw [show (p.name, kv.2) = kv from by rw [hpk]]
                  exact hkv
                have := kwGet_eq_of_mem hnd hm
                rw [hn] at this
                exact this.symm
              have h2 : kv.2.isNone = true := by rw [hv]; rfl
              simp [List.any_cons, h2]
            · simp [List.any_cons, hpk]
        · have hkw1 : kw1 = kwDel kw p.name := bindOne_consumed hn hb
          subst hkw1
          have ih := bindParams_ok_leftover nick rest u1 pr1 d1 _ u pr d kw'
            (nodup_kwDel hnd) h
          rw [ih]
          simp only [kwDel]
          rw [List.filter_filter]
          refine List.filter_congr ?_
          intro kv hkv
          by_cases hpk : p.name = kv.1
          · have hv : ¬(kv.2.isNone = true) := by
              intro hisv
              have hveq : kv.2 = .none := isNone_iff.mp hisv
              have hm : (p.name, kv.2) ∈ kw := by
                rw [show (p.name, kv.2) = kv from by rw [hpk]]
                exact hkv
              exact hn (hveq ▸ kwGet_eq_of_mem hnd hm)
            have h2 : kv.2.isNone = false := Bool.eq_false_iff.mpr hv
            have hpk2 : kv.1 = p.name := hpk.symm
            simp [List.any_cons, hpk2, h2]
          · have hpk2 : ¬(kv.1 = p.name) := fun he => hpk he.symm
            simp [List.any_cons, hpk, hpk2]

/-- An unmatched required parameter always aborts the binding loop with some
error (no transport call can follow). -/
theorem bindParams_required_missing_error (nick : String) :
    ∀ (ps : List Param) (uri : String) (params : PyDict) (data : Option PyDict)
      (kw : Kwargs),
      (∃ p ∈ ps, p.required = true ∧ kwGet kw p.name = .none) →
      ∃ e, bindParams nick ps uri params data kw = .error e
  | [], _, _, _, _, hmiss => by
      obtain ⟨p, hp, -⟩ := hmiss
      cases hp
  | p :: rest, uri, params, data, kw, hmiss => by
      unfold bindParams
      cases hb : bindOne nick uri params data kw p with
      | error e => exact ⟨e, rfl⟩
      | ok q =>
        obtain ⟨u1, pr1, d1, kw1⟩ := q
        obtain ⟨p', hp'mem, hreq, hnone⟩ := hmiss
        cases hp'mem with
        | head =>
          rw [bindOne_absent hnone, hreq] at hb
          cases hb
        | tail _ hmem =>
          have hnone1 : kwGet kw1 p'.name = .none := bindOne_none_monotone hb hnone
          obtain ⟨e, he⟩ := bindParams_required_missing_error nick rest u1 pr1 d1 kw1
            ⟨p', hmem, hreq, hnone1⟩
          exact ⟨e, he⟩

/-- An explicitly-`None` argument survives the whole binding loop. -/
theorem bindParams_none_survives (nick : String) :
    ∀ (ps : List Param) (uri : String) (params : PyDict) (data : Option PyDict)
      (kw : Kwargs) (name : String) (u : String) (pr : PyDict) (d : Option PyDict)
      (kw' : Kwargs),
      (kw.map Prod.fst).Nodup →
      (name, PyVal.none) ∈ kw →
      bindParams nick ps uri params data kw = .ok (u, pr, d, kw') →
      (name, PyVal.none) ∈ kw'
  | [], uri, params, data, kw, name, u, pr, d, kw', _, hmem, h => by
      unfold bindParams at h
      simp only [Except.ok.injEq, Prod.mk.injEq] at h
      obtain ⟨-, -, -, rfl⟩ := h
      exact hmem
  | p :: rest, uri, params, data, kw, name, u, pr, d, kw', hnd, hmem, h => by
      unfold bindParams at h
      cases hb : bindOne nick uri params data kw p with
      | error e => rw [hb] at h; cases h
      | ok q =>
        rw [hb] at h
        obtain ⟨u1, pr1, d1, kw1⟩ := q
        by_cases hn : kwGet kw p.name = .none
        · rw [bindOne_absent hn] at hb
          by_cases hr : p.required
          · rw [if_pos hr] at hb; cases hb
          · rw [if_neg hr] at hb
            simp only [Except.ok.injEq, Prod.mk.injEq] at hb
            obtain ⟨rfl, rfl, rfl, rfl⟩ := hb
            exact bindParams_none_survives nick rest uri params data kw name u pr d kw'
              hnd hmem h
        · have hkw1 : kw1 = kwDel kw p.name := bindOne_consumed hn hb
          subst hkw1
          have hne : ¬(name = p.name) := by
            intro he
            exact hn (he ▸ kwGet_eq_of_mem hnd hmem)
          have hmem1 : (name, PyVal.none) ∈ kwDel kw p.name := by
            refine List.mem_filter.mpr ⟨hmem, ?_⟩
            simp [hne]
          exact bindParams_none_survives nick rest u1 pr1 d1 _ name u pr d kw'
            (nodup_kwDel hnd) hmem1 h

/-- `find?` only inspects predicate values on the list's members. -/
theorem find?_congr_mem {α : Type} (f g : α → Bool) :
    ∀ l : List α, (∀ x ∈ l, f x = g x) → l.find? f = l.find? g
  | [], _ => rfl
  | x :: xs, h => by
    have hx := h x (List.mem_cons_self x xs)
    have ih := find?_congr_mem f g xs (fun y hy => h y (List.mem_cons_of_mem x hy))
    cases hg : g x with
    | true => simp [List.find?_cons, hx, hg]
    | false => simp [List.find?_cons, hx, hg, ih]

/-- A cleanly-binding present argument is routed successfully and consumed. -/
theorem bindOne_cleanly_consumed {nick uri : String} {params : PyDict}
    {data : Option PyDict} {kw : Kwargs} {p : Param}
    (hcl : bindsCleanly kw p = true) (hv : ¬(kwGet kw p.name = .none)) :
    ∃ u1 pr1 d1,
      bindOne nick uri params data kw p = .ok (u1, pr1, d1, kwDel kw p.name) := by
  unfold bindsCleanly at hcl
  cases hn : normalizeArg kw p.name with
  | error e => rw [hn] at hcl; cases hcl
  | ok v =>
    rw [hn] at hcl
    have hvn : v.isNone = false := by
      cases hval : v with
      | none =>
        rw [hval] at hn
        exact absurd (normalizeArg_ok_none_iff.mp hn) hv
      | bool b => rfl
      | int n => rfl
      | str s => rfl
      | list xs => rfl
      | dict entries => rfl
    simp only [hvn, Bool.false_or, Bool.or_eq_true, Bool.and_eq_true,
      decide_eq_true_eq] at hcl
    rcases hcl with (hpath | hquery) | ⟨hbody, hdict⟩
    · refine ⟨pyReplace uri ("\x7b" ++ p.name ++ "\x7d") (quotePlus (pyStr v)),
        params, data, ?_⟩
      unfold bindOne
      rw [hn, hpath]
      cases v with
      | none => simp [PyVal.isNone] at hvn
      | bool b => exact rfl
      | int n => exact rfl
      | str s => exact rfl
      | list xs => exact rfl
      | dict entries => exact rfl
    · refine ⟨uri, dictSet params p.name v, data, ?_⟩
      unfold bindOne
      rw [hn, hquery]
      cases v with
      | none => simp [PyVal.isNone] at hvn
      | bool b => exact rfl
      | int n => exact rfl
      | str s => exact rfl
      | list xs => exact rfl
      | dict entries => exact rfl
    · cases v with
      | dict d2 =>
        refine ⟨uri, params,
          (match data with
            | some d => if d.isEmpty then some d2 else some (dictUpdate d d2)
            | Option.none => some d2), ?_⟩
        unfold bindOne
        rw [hn, hbody]
        exact rfl
      | none => simp [PyVal.isDict] at hdict
      | bool b => simp [PyVal.isDict] at hdict
      | int n => simp [PyVal.isDict] at hdict
      | str s => simp [PyVal.isDict] at hdict
      | list xs => simp [PyVal.isDict] at hdict

/-- When every supplied argument binds cleanly and parameter names are
distinct, the loop fails with the missing-required `TypeError` naming the
first required parameter whose argument is absent. -/
theorem bindParams_missing_find (nick : String) :
    ∀ (ps : List Param) (uri : String) (params : PyDict) (data : Option PyDict)
      (kw : Kwargs) (p₀ : Param),
      (ps.map Param.name).Nodup →
      (∀ p ∈ ps, bindsCleanly kw p = true) →
      ps.find? (fun p => p.required && (kwGet kw p.name).isNone) = some p₀ →
      bindParams nick ps uri params data kw =
        .error (.typeError (missingParamMsg p₀.name nick))
  | [], _, _, _, _, p₀, _, _, hfind => by cases hfind
  | p :: rest, uri, params, data, kw, p₀, hnd, hcl, hfind => by
    rw [List.map_cons] at hnd
    obtain ⟨hnotin, hnd'⟩ := List.nodup_cons.mp hnd
    cases hp : (p.required && (kwGet kw p.name).isNone) with
    | true =>
      have hp0 : p₀ = p := by
        rw [List.find?_cons, hp] at hfind
        exact (Option.some.inj hfind).symm
      subst hp0
      rw [Bool.and_eq_true] at hp
      obtain ⟨hreq, hmiss⟩ := hp
      have hmiss' : kwGet kw p₀.name = .none := isNone_iff.mp hmiss
      unfold bindParams
      rw [bindOne_absent hmiss', if_pos hreq]
    | false =>
      have hfind' : rest.find? (fun q => q.required && (kwGet kw q.name).isNone) =
          some p₀ := by
        rw [List.find?_cons, hp] at hfind
        exact hfind
      have hnamene : ∀ q ∈ rest, ¬(q.name = p.name) := by
        intro q hq he
        exact hnotin (he ▸ List.mem_map.mpr ⟨q, hq, rfl⟩)
      by_cases hn : kwGet kw p.name = .none
      · have hreq : p.required = false := by
          cases hr : p.required
          · rfl
          · rw [hr, hn] at hp
            simp [PyVal.isNone] at hp
        unfold bindParams
        rw [bindOne_absent hn, hreq]
        exact bindParams_missing_find nick rest uri params data kw p₀ hnd'
          (fun q hq => hcl q (List.mem_cons_of_mem p hq)) hfind'
      · obtain ⟨u1, pr1, d1, hb⟩ :=
          @bindOne_cleanly_consumed nick uri params data kw p
            (hcl p (List.mem_cons_self p rest)) hn
        unfold bindParams
        rw [hb]
        refine bindParams_missing_find nick rest u1 pr1 d1 (kwDel kw p.name) p₀
          hnd' ?_ ?_
        · intro q hq
          have hq' := hcl q (List.mem_cons_of_mem p hq)
          unfold bindsCleanly at hq' ⊢
          rw [normalizeArg_kwDel_ne (hnamene q hq)]
          exact hq'
        · refine (find?_congr_mem _ _ rest ?_).trans hfind'
          intro q hq
          rw [kwGet_kwDel_ne (hnamene q hq)]

/-- A binding-loop error propagates out of `__call__` unchanged. -/
theorem call_of_bindParams_error {op : Operation} {kw : Kwargs} {e : PyErr}
    (h : bindParams op.json.nickname op.json.parameters op.uri [] Option.none kw =
      .error e) :
    op.call kw = .error e := by
  unfold Operation.call
  rw [h]

/-- A non-empty leftover argument set makes `__call__` fail with the
unexpected-parameters `TypeError`, listing the leftover names. -/
theorem call_of_leftover {op : Operation} {kw : Kwargs} {u : String} {pr : PyDict}
    {d : Option PyDict} {kw1 : Kwargs}
    (h : bindParams op.json.nickname op.json.parameters op.uri [] Option.none kw =
      .ok (u, pr, d, kw1))
    (hne : kw1 ≠ []) :
    op.call kw = .error (.typeError (leftoverMsg op.json.nickname (kw1.map Prod.fst))) := by
  unfold Operation.call
  rw [h]
  cases kw1 with
  | nil => exact absurd rfl hne
  | cons a l => rfl

/-- C7: `push(kind, node, idField)` fails — with the `MissingFieldError`-class
error `BaseException("Missing id_field: ...")` — exactly when `idField` is
absent from the node, and otherwise produces precisely the state of
`push_str(kind, node, str(node[idField]))`. -/
theorem c7_push_contract (ctx : ParsingContext) (obj_type : String) (d : PyDict)
    (id_field : String) :
    (dictGet? d id_field = Option.none →
      ctx.push obj_type (.dict d) id_field =
        .error (.baseException ("Missing id_field: " ++ id_field))) ∧
    (∀ v, dictGet? d id_field = some v →
      ctx.push obj_type (.dict d) id_field =
        .ok (ctx.push_str obj_type (.dict d) (.str (pyStr v)))) := by
  constructor
  · intro h
    simp [ParsingContext.push, h]
  · intro v h
    simp [ParsingContext.push, h]

/-- C7 witness: the contract applied to a node carrying the field and to a
node lacking it. -/
theorem c7_push_contract_witness :
    ParsingContext.init.push "listing_api" (.dict [("path", .str "/pets")]) "path" =
      .ok (ParsingContext.init.push_str "listing_api"
        (.dict [("path", .str "/pets")]) (.str "/pets")) ∧
    ParsingContext.init.push "listing_api" (.dict [("basePath", .str "/")]) "path" =
      .error (.baseException ("Missing id_field: " ++ "path")) := by
  constructor
  · exact (c7_push_contract ParsingContext.init "listing_api"
      [("path", .str "/pets")] "path").2 (.str "/pets") rfl
  · exact (c7_push_contract ParsingContext.init "listing_api"
      [("basePath", .str "/")] "path").1 rfl

/-- C6: a supplied (non-`None`) argument for a `paramType: path` parameter
replaces the literal placeholder in the URI template with the
percent-encoded string form of the value, contributes nothing to the query
bundle (and leaves the body untouched), and is consumed; end to end, the
spec scenario `GET /pets/{id}` invoked with `id = "42"` issues a request to
`/pets/42` with an empty query bundle. -/
theorem c6_path_substitution :
    (∀ (nick uri : String) (params : PyDict) (data : Option PyDict) (kw : Kwargs)
      (p : Param) (v : PyVal),
      p.paramType = "path" → normalizeArg kw p.name = .ok v → v.isNone = false →
      bindOne nick uri params data kw p =
        .ok (pyReplace uri ("\x7b" ++ p.name ++ "\x7d") (quotePlus (pyStr v)),
          params, data, kwDel kw p.name)) ∧
    petOp.call [("id", .str "42")] =
      .ok (.request "GET" "http://h/pets/42" [] .none .none) := by
  constructor
  · intro nick uri params data kw p v hpt hnorm hnone
    unfold bindOne
    rw [hnorm, hpt]
    cases v with
    | none => simp [PyVal.isNone] at hnone
    | bool b => exact rfl
    | int n => exact rfl
    | str s => exact rfl
    | list xs => exact rfl
    | dict entries => exact rfl
  · rfl

/-- C6 witness: the general statement instantiated at the spec scenario's
parameter and template. -/
theorem c6_path_substitution_witness :
    bindOne "getPet" "http://h/pets/\x7bid\x7d" [] Option.none
      [("id", .str "42")] ⟨"id", "path", true⟩ =
      .ok ("http://h/pets/42", [], Option.none, []) := by
  have h := c6_path_substitution.1 "getPet" "http://h/pets/\x7bid\x7d" [] Option.none
    [("id", .str "42")] ⟨"id", "path", true⟩ (.str "42") rfl rfl rfl
  exact h

/-- C1: for an operation processed by `WebsocketProcessor.apply`,
`is_websocket` is set exactly when `upgrade == "websocket"`, and then the
owning api entry's `has_websocket` is set; with `httpMethod` GET the walk
succeeds past the operation. But on a non-GET websocket operation `apply`
fails with the `TypeError` raised by calling the one-parameter
`SwaggerError` with two arguments — not with a `ValidationError`/
`SwaggerError` carrying "upgrade: websocket is only valid on GET
operations", which is never constructed (code bug: the claim describes the
source's evident intent). -/
theorem c1_websocket_rule :
    (websocketProcessor.apply (docWith wsOperationPOST)).1 =
      .error (.typeError swaggerErrorArityMsg) ∧
    PyErr.typeError swaggerErrorArityMsg ≠ .baseException websocketUpgradeMsg ∧
    (websocketProcessor.apply (docWith wsOperationGET)).1 =
      .ok (docGETEnriched, ⟨[], [], []⟩) ∧
    (websocketProcessor.apply (docWith plainOperation)).1 =
      .ok (docPlainEnriched, ⟨[], [], []⟩) := by
  refine ⟨rfl, ?_, rfl, rfl⟩
  intro h
  exact PyErr.noConfusion h

/-- C5: whenever the accumulated body is truthy, `Operation.__call__`
evaluates `json.dumps(data)` with the `json` module never imported, so the
invocation fails with `NameError` before any headers are set and before any
transport call — the claimed JSON headers are never sent (code bug: the
missing `import json` contradicts the evident intent; additionally the dead
header assignment uses the key `'Content-type'`, not `'Content-Type'`).
Without a body the transport is called with headers `None` (omitted), as
claimed. -/
theorem c5_headers_name_error :
    bodyOp.call [("b", .dict [("x", .int 1)])] = .error (.nameError jsonNameErrMsg) ∧
    plainOp.call [] = .ok (.request "GET" "http://h/x" [] .none .none) := by
  exact ⟨rfl, rfl⟩

/-- C8: the parameter-binding loop merges multiple dict-valued body
parameters into one dict, later parameters overwriting earlier ones on key
collision, exactly as claimed — but the merged object is never used as a
request body: the invocation then fails with the `NameError` from the
missing `json` import before reaching the transport (code bug). -/
theorem c8_body_merge :
    bindParams "m" mergeOp.json.parameters "/u" [] Option.none
      [("b1", .dict [("x", .int 1)]), ("b2", .dict [("y", .int 2)])] =
      .ok ("/u", [], some [("x", .int 1), ("y", .int 2)], []) ∧
    bindParams "m" mergeOp.json.parameters "/u" [] Option.none
      [("b1", .dict [("x", .int 1)]), ("b2", .dict [("x", .int 9)])] =
      .ok ("/u", [], some [("x", .int 9)], []) ∧
    mergeOp.call [("b1", .dict [("x", .int 1)]), ("b2", .dict [("y", .int 2)])] =
      .error (.nameError jsonNameErrMsg) := by
  exact ⟨rfl, rfl, rfl⟩

/-- C9: invoking a websocket operation with a body payload fails before any
`ws_connect`, but with the `NameError` from the missing `json` import at
line 91 — the `NotImplementedError` at lines 98-100 is unreachable (code
bug). Without a body the websocket connect is attempted (with the scheme
rewritten `http` → `ws`). -/
theorem c9_websocket_body :
    wsOp.call [("b", .dict [("x", .int 1)])] = .error (.nameError jsonNameErrMsg) ∧
    PyErr.nameError jsonNameErrMsg ≠ .notImplementedError wsBodyMsg ∧
    wsOp.call [] = .ok (.wsConnect "ws://h/events" []) := by
  refine ⟨rfl, ?_, rfl⟩
  intro h
  exact PyErr.noConfusion h

/-- C3, counterexample: `c3cexOp` declares a body parameter `b` before a
required path parameter `r`; invoking with a non-dict value for `b` and no
argument for `r` leaves a required parameter unmatched, yet the invocation
fails with the body `TypeError`, whose message names neither `r` nor any
declared parameter together with the nickname. -/
theorem c3_claim_counterexample :
    ((Param.mk "r" "path" true) ∈ c3cexOp.json.parameters ∧
      (Param.mk "r" "path" true).required = true ∧
      kwGet [("b", PyVal.int 5)] "r" = .none) ∧
    c3cexOp.call [("b", .int 5)] = .error (.typeError bodyDictMsg) ∧
    bodyDictMsg ≠ missingParamMsg "b" c3cexOp.json.nickname ∧
    bodyDictMsg ≠ missingParamMsg "r" c3cexOp.json.nickname := by
  refine ⟨⟨?_, rfl, rfl⟩, rfl, ?_, ?_⟩ <;> decide

/-- C10, counterexample: `c10cexOp` declares a required parameter `r` and an
optional one `n`; invoking with only `n = None` passes `None` explicitly for
a non-required declared parameter, yet the invocation fails with the
missing-required-parameter error for `r`, not with the unexpected-parameter
error listing `n`. -/
theorem c10_claim_counterexample :
    ((Param.mk "n" "query" false) ∈ c10cexOp.json.parameters ∧
      kwGet [("n", PyVal.none)] "n" = .none) ∧
    c10cexOp.call [("n", .none)] =
      .error (.typeError (missingParamMsg "r" c10cexOp.json.nickname)) ∧
    missingParamMsg "r" c10cexOp.json.nickname ≠
      leftoverMsg c10cexOp.json.nickname ["n"] := by
  refine ⟨⟨?_, rfl⟩, rfl, ?_⟩ <;> decide

/-- C3 (amended): whenever some declared parameter with `required: true` has
no matching named argument (absent, or explicitly `None`), the invocation
fails before any transport call; when moreover every supplied argument binds
cleanly (lists of strings, body values that are dicts, paramTypes among
path/query/body) and parameter names are distinct, the error is the
`TypeError` "Missing required parameter ..." naming the first such parameter
and the operation's nickname. -/
theorem c3_missing_required (op : Operation) (kw : Kwargs)
    (hmiss : ∃ p ∈ op.json.parameters, p.required = true ∧ kwGet kw p.name = .none) :
    (∃ e, op.call kw = .error e) ∧
    (∀ p₀ : Param,
      (op.json.parameters.map Param.name).Nodup →
      (∀ p ∈ op.json.parameters, bindsCleanly kw p = true) →
      op.json.parameters.find? (fun p => p.required && (kwGet kw p.name).isNone) =
        some p₀ →
      op.call kw = .error (.typeError (missingParamMsg p₀.name op.json.nickname))) := by
  constructor
  · obtain ⟨e, he⟩ := bindParams_required_missing_error op.json.nickname
      op.json.parameters op.uri [] Option.none kw hmiss
    exact ⟨e, call_of_bindParams_error he⟩
  · intro p₀ hnd hcl hfind
    exact call_of_bindParams_error
      (bindParams_missing_find op.json.nickname op.json.parameters op.uri []
        Option.none kw p₀ hnd hcl hfind)

/-- C3 witness: the amended theorem applied to the spec scenario — `getPet`
with required path parameter `id` invoked with no arguments. -/
theorem c3_missing_required_witness :
    petOp.call [] = .error (.typeError (missingParamMsg "id" "getPet")) :=
  (c3_missing_required petOp []
      ⟨⟨"id", "path", true⟩, List.mem_cons_self _ _, rfl, rfl⟩).2
    ⟨"id", "path", true⟩ (by decide) (by decide) rfl

/-- C4: on a successful pass over the declared parameters, the leftover
argument set is exactly the input minus every argument that matched a
declared parameter with a non-`None` value ("matched" in the spec's sense:
an explicit `None` counts as absent and is not consumed); and if any
arguments are left over, the invocation fails with the `TypeError` listing
the leftover names and the nickname — no silent pass-through. -/
theorem c4_unconsumed_args (op : Operation) (kw : Kwargs)
    (hnd : (kw.map Prod.fst).Nodup) :
    ∀ (u : String) (pr : PyDict) (d : Option PyDict) (kw' : Kwargs),
      bindParams op.json.nickname op.json.parameters op.uri [] Option.none kw =
        .ok (u, pr, d, kw') →
      kw' = kw.filter (fun kv => !(declaredName op.json kv.1 && !kv.2.isNone)) ∧
      (kw' ≠ [] →
        op.call kw =
          .error (.typeError (leftoverMsg op.json.nickname (kw'.map Prod.fst)))) := by
  intro u pr d kw' hok
  constructor
  · exact bindParams_ok_leftover op.json.nickname op.json.parameters op.uri []
      Option.none kw u pr d kw' hnd hok
  · intro hne
    exact call_of_leftover hok hne

/-- C4 witness: an operation declaring only `a`, invoked with `a` and a
surplus `z` — `a` is consumed, `z` is left over and reported. -/
theorem c4_unconsumed_args_witness :
    ([("z", PyVal.str "2")] : Kwargs) =
      ([("a", PyVal.str "1"), ("z", PyVal.str "2")] : Kwargs).filter
        (fun kv => !(declaredName c4Op.json kv.1 && !kv.2.isNone)) ∧
    c4Op.call [("a", .str "1"), ("z", .str "2")] =
      .error (.typeError (leftoverMsg "op3" ["z"])) := by
  have h := c4_unconsumed_args c4Op [("a", .str "1"), ("z", .str "2")] (by decide)
    "/q" [("a", .str "1")] Option.none [("z", .str "2")] rfl
  exact ⟨h.1, h.2 (List.cons_ne_nil _ _)⟩

/-- C10 (amended): passing `None` explicitly for a declared non-required
parameter treats the argument as absent — the parameter loop leaves the
whole working state (URI, query bundle, body, argument set) unchanged at
that parameter — yet never consumes it; hence the invocation can never
succeed, and whenever the binding loop itself succeeds it fails with the
unexpected-parameter `TypeError` listing that argument's name. -/
theorem c10_none_argument (op : Operation) (kw : Kwargs) (name : String)
    (hnd : (kw.map Prod.fst).Nodup)
    (hmem : (name, PyVal.none) ∈ kw)
    (hdecl : ∃ p ∈ op.json.parameters, p.name = name ∧ p.required = false) :
    (∀ t, op.call kw ≠ .ok t) ∧
    (∀ (uri1 : String) (pr : PyDict) (d : Option PyDict) (pt : String),
      bindOne op.json.nickname uri1 pr d kw ⟨name, pt, false⟩ =
        .ok (uri1, pr, d, kw)) ∧
    (∀ (u : String) (pr : PyDict) (d : Option PyDict) (kw' : Kwargs),
      bindParams op.json.nickname op.json.parameters op.uri [] Option.none kw =
        .ok (u, pr, d, kw') →
      name ∈ kw'.map Prod.fst ∧
      op.call kw =
        .error (.typeError (leftoverMsg op.json.nickname (kw'.map Prod.fst)))) := by
  have hget : kwGet kw name = .none := kwGet_eq_of_mem hnd hmem
  refine ⟨?_, ?_, ?_⟩
  · intro t ht
    unfold Operation.call at ht
    cases hbp : bindParams op.json.nickname op.json.parameters op.uri []
        Option.none kw with
    | error e => rw [hbp] at ht; cases ht
    | ok q =>
      obtain ⟨u, pr, d, kw'⟩ := q
      rw [hbp] at ht
      have hsurv : (name, PyVal.none) ∈ kw' :=
        bindParams_none_survives op.json.nickname op.json.parameters op.uri []
          Option.none kw name u pr d kw' hnd hmem hbp
      cases kw' with
      | nil => cases hsurv
      | cons a l => cases ht
  · intro uri1 pr d pt
    have := @bindOne_absent op.json.nickname uri1 pr d kw ⟨name, pt, false⟩ hget
    rw [this]
    rfl
  · intro u pr d kw' hbp
    have hsurv : (name, PyVal.none) ∈ kw' :=
      bindParams_none_survives op.json.nickname op.json.parameters op.uri []
        Option.none kw name u pr d kw' hnd hmem hbp
    refine ⟨List.mem_map.mpr ⟨(name, PyVal.none), hsurv, rfl⟩, ?_⟩
    refine call_of_leftover hbp ?_
    intro hnil
    rw [hnil] at hsurv
    cases hsurv

/-- C10 witness: the amended theorem applied to an operation declaring only
the optional query parameter `n`, invoked with `n = None`. -/
theorem c10_none_argument_witness :
    bindOne "op2" "/x" [] Option.none [("n", PyVal.none)] ⟨"n", "query", false⟩ =
      .ok ("/x", [], Option.none, [("n", PyVal.none)]) ∧
    c10Op.call [("n", PyVal.none)] = .error (.typeError (leftoverMsg "op2" ["n"])) := by
  have h := c10_none_argument c10Op [("n", PyVal.none)] "n" (by decide)
    (List.mem_cons_self _ _)
    ⟨⟨"n", "query", false⟩, List.mem_cons_self _ _, rfl, rfl⟩
  exact ⟨h.2.1 "/x" [] Option.none "query",
    (h.2.2 "/x" [] Option.none [("n", PyVal.none)] rfl).2⟩

/-- C2: whenever the walk body of `apply` completes successfully, the final
`ParsingContext` has both stacks empty (`is_empty` is true, so the fatal
assertion closing `apply` passes and `apply` returns the very same result),
and every context state recorded after each push and each pop during the
walk has `type_stack` and `id_stack` of equal length — every push performed
by the walk is matched by exactly one pop. -/
theorem c2_stack_balance (proc : SwaggerProcessor) (resources doc : PyVal)
    (ctx : ParsingContext) (tr : List ParsingContext)
    (h : proc.walk resources = (.ok (doc, ctx), tr)) :
    ctx.type_stack = [] ∧ ctx.id_stack = [] ∧ ctx.is_empty = true ∧
    proc.apply resources = (.ok (doc, ctx), tr) ∧
    ∀ c ∈ tr, c.type_stack.length = c.id_stack.length := by
  have hwalk := h
  unfold SwaggerProcessor.walk at h
  simp only [walkM_bind_def] at h
  rcases bindW_eq h with ⟨e, -, hbad⟩ | ⟨resources_url, tra, trb, hx, h1, htr⟩
  · cases hbad
  · obtain ⟨-, rfl⟩ := liftW_eq hx
    rcases bindW_eq h1 with ⟨e, -, hbad⟩ | ⟨ctx1, tra2, trb2, hx2, h2, htr2⟩
    · cases hbad
    · obtain ⟨heq1, rfl⟩ := pushStrW_eq hx2
      obtain rfl := Except.ok.inj heq1
      rcases bindW_eq h2 with ⟨e, -, hbad⟩ | ⟨resources1, tra3, trb3, hx3, h3, htr3⟩
      · cases hbad
      · obtain ⟨-, rfl⟩ := liftW_eq hx3
        rcases bindW_eq h3 with ⟨e, -, hbad⟩ | ⟨las, tra4, trb4, hx4, h4, htr4⟩
        · cases hbad
        · obtain ⟨-, rfl⟩ := liftW_eq hx4
          rcases bindW_eq h4 with ⟨e, -, hbad⟩ | ⟨t3, tra5, trb5, hx5, h5, htr5⟩
          · cases hbad
          · obtain ⟨Lbal, Lres⟩ := walkListingApis_spec proc _ _ _ _ _ hx5
            have hctxL := Lres t3 rfl
            rcases bindW_eq h5 with ⟨e, -, hbad⟩ | ⟨ctx3, tra6, trb6, hx6, h6, htr6⟩
            · cases hbad
            · rcases popW_eq hx6 with ⟨e', -, hbad, -⟩ | ⟨c3, hpop, heqr, rfl⟩
              · cases hbad
              · obtain rfl := Except.ok.inj heqr
                obtain ⟨heqf, rfl⟩ := pureW_eq h6
                obtain ⟨-, heqc⟩ := Prod.mk.injEq .. ▸ (Except.ok.inj heqf)
                subst heqc
                obtain ⟨t', ts, i', ids, ha, hb', hts, hid⟩ := pop_ok_stacks hpop
                rw [hctxL.1] at ha
                rw [hctxL.2] at hb'
                obtain ⟨-, ha2⟩ :=
                  List.cons.inj (ha : "resources" :: ([] : List String) = t' :: ts)
                obtain ⟨-, hb2⟩ := List.cons.inj hb'
                have hempty1 : ctx.type_stack = [] := by rw [hts, ← ha2]; rfl
                have hempty2 : ctx.id_stack = [] := by rw [hid, ← hb2]; rfl
                have hisempty : ctx.is_empty = true := by
                  unfold ParsingContext.is_empty
                  rw [hempty1, hempty2]
                  rfl
                subst htr htr2 htr3 htr4 htr5 htr6
                refine ⟨hempty1, hempty2, hisempty, ?_, ?_⟩
                · unfold SwaggerProcessor.apply
                  rw [hwalk]
                  simp [hisempty]
                · intro c hc
                  have hb1 : stacksBalanced (ParsingContext.init.push_str "resources"
                      resources resources_url) := by
                    unfold stacksBalanced
                    rfl
                  have hc' : c = ParsingContext.init.push_str "resources" resources
                      resources_url ∨ c ∈ tra5 ∨ c = ctx := by simpa using hc
                  rcases hc' with rfl | hc' | rfl
                  · exact hb1
                  · exact Lbal hb1 c hc'
                  · rw [hempty1, hempty2]
                    rfl

/-- C2 witness: the base processor applied to an empty resource listing —
the walk succeeds, the final context is empty, `apply` passes its assertion,
and both recorded context states are balanced. -/
theorem c2_stack_balance_witness :
    ParsingContext.is_empty ⟨[], [], []⟩ = true ∧
    baseProcessor.apply emptyListingDoc =
      (.ok (emptyListingDoc, ⟨[], [], []⟩),
        [⟨["resources"], [.str "json:resource_listing"],
          [("resources", emptyListingDoc)]⟩, ⟨[], [], []⟩]) := by
  have h := c2_stack_balance baseProcessor emptyListingDoc emptyListingDoc
    ⟨[], [], []⟩
    [⟨["resources"], [.str "json:resource_listing"], [("resources", emptyListingDoc)]⟩,
      ⟨[], [], []⟩]
    rfl
  exact ⟨h.2.2.1, h.2.2.2.1⟩

end Swaggerpy3
